import Mathlib

/-!
Verification development for the Atomizer symbol-dependency-graph engine.

The engine has three components, embedded here from the JavaScript source:
  * `ScopeAnalyzer` (src/FileInventory.js) — scope-aware identifier-usage
    detection over the parser's ESTree-shaped AST, with a regex fallback;
  * `DependencyTracer` (src/DependencyTracer.js) — internal/external consumer
    tracing over the indexer's four maps, following re-export chains with a
    visited-set cycle guard;
  * `ProjectIndexer` (unnamed part_003) — per-file top-level node indexing
    into the four maps, and module-specifier resolution.

The syntax front end (`@typescript-eslint/typescript-estree`) is an external
collaborator: a parsed fragment is represented by its resulting AST (or `none`
when parsing fails), and file-system/path primitives are environment
parameters, exactly at the boundaries where the source calls collaborators.
-/

namespace Atomizer

/-- Set-insert on a plain list: appends the element only when absent.
Models `if (!xs.includes(u)) xs.push(u)` and JS object-key assignment. -/
def addUniq (l : List Nat) (u : Nat) : List Nat :=
  if u ∈ l then l else l ++ [u]

/-! ## ScopeAnalyzer: the ESTree fragment AST

The analyzer (class `ScopeAnalyzer`) walks the parser's duck-typed AST
generically, special-casing the node types listed in `createsScope`,
`collectDeclaredNames`, `collectPatternNames` and the identifier/property/
member checks of `findUsageInNode`.  The embedding gives each special-cased
shape its own constructor; every other node type is `other` (the analyzer
only recurses through such nodes' children).  A missing child (`null` /
`undefined` in the parser output) is `hole`. -/

mutual

inductive Ast : Type where
  | identifier (name : String)
  | jsxIdentifier (name : String)
  | functionDeclaration (id : Option String) (params : AstList) (body : Ast)
  | functionExpression (id : Option String) (params : AstList) (body : Ast)
  | arrowFunctionExpression (params : AstList) (body : Ast)
  | classDeclaration (id : Option String) (body : AstList)
  | classExpression (id : Option String) (body : AstList)
  | blockStatement (stmts : AstList)
  | forStatement (init : Ast) (test : Ast) (update : Ast) (body : Ast)
  | forInStatement (left : Ast) (right : Ast) (body : Ast)
  | forOfStatement (left : Ast) (right : Ast) (body : Ast)
  | catchClause (param : Ast) (body : Ast)
  | property (shorthand : Bool) (computed : Bool) (key : Ast) (value : Ast)
  | memberExpression (computed : Bool) (obj : Ast) (prop : Ast)
  | variableDeclaration (decls : AstList)
  | variableDeclarator (idPat : Ast) (init : Ast)
  | objectPattern (props : AstList)
  | arrayPattern (elems : AstList)
  | restElement (arg : Ast)
  | assignmentPattern (left : Ast) (right : Ast)
  | callExpression (callee : Ast) (args : AstList)
  | other (kind : String) (children : AstList)
  | hole
  deriving DecidableEq

inductive AstList : Type where
  | nil
  | cons (hd : Ast) (tl : AstList)
  deriving DecidableEq

end

/-- The lexical position of a node relative to its parent, as far as
the parent checks of `findUsageInNode` care: is it the `key` of a `Property`,
or the `property` of a `MemberExpression`?  (These are the only two
parent-based exclusions in the source.) -/
inductive Ctx : Type where
  | plain
  | propKey (shorthand : Bool)
  | memberProp (computed : Bool)
  deriving DecidableEq

/-! `collectPatternNames` — names bound by a (possibly destructuring)
pattern; `ScopeAnalyzer.collectPatternNames`.  The JS pushes into a mutable
set; here each function returns the grown list (cons-ing preserves the
membership semantics of `Set.add`). -/

mutual

def collectPatternNames (pat : Ast) (names : List String) : List String :=
  match pat with
  | .identifier n => n :: names
  | .objectPattern props => collectPatternProps props names
  | .arrayPattern elems => collectPatternElems elems names
  | .restElement arg => collectPatternNames arg names
  | .assignmentPattern left _ => collectPatternNames left names
  | _ => names

/-- ObjectPattern properties: a `Property` contributes its `value` pattern,
a `RestElement` its `argument`; anything else is skipped. -/
def collectPatternProps (props : AstList) (names : List String) : List String :=
  match props with
  | .nil => names
  | .cons p tl =>
    match p with
    | .property _ _ _ value => collectPatternProps tl (collectPatternNames value names)
    | .restElement arg => collectPatternProps tl (collectPatternNames arg names)
    | _ => collectPatternProps tl names

/-- ArrayPattern elements; `hole` models the `null` holes the JS skips. -/
def collectPatternElems (elems : AstList) (names : List String) : List String :=
  match elems with
  | .nil => names
  | .cons e tl =>
    match e with
    | .hole => collectPatternElems tl names
    | _ => collectPatternElems tl (collectPatternNames e names)

end

/-- One step of the statement loop in `collectBlockDeclarations`: `var`/`let`/`const`
declarators and hoisted function declarations found directly in the scope. -/
def collectStmtDecls (stmt : Ast) (names : List String) : List String :=
  match stmt with
  | .variableDeclaration decls => collectDeclaratorIds decls names
  | .functionDeclaration (some n) _ _ => n :: names
  | _ => names
where
  collectDeclaratorIds (decls : AstList) (names : List String) : List String :=
    match decls with
    | .nil => names
    | .cons d tl =>
      match d with
      | .variableDeclarator idPat _ => collectDeclaratorIds tl (collectPatternNames idPat names)
      | _ => collectDeclaratorIds tl names

/-- Models `ScopeAnalyzer.collectBlockDeclarations`: for a block the statement list is
`node.body`; for a `for`/`for-in`/`for-of` it is the single body statement, and
the `init`/`left` clauses are scanned when they are variable declarations. -/
def collectBlockDeclarations (node : Ast) (names : List String) : List String :=
  match node with
  | .blockStatement stmts => collectStmts stmts names
  | .forStatement init _ _ body =>
    let names := match init with
      | .variableDeclaration decls => collectStmtDecls.collectDeclaratorIds decls names
      | _ => names
    collectStmtDecls body names
  | .forInStatement left _ body =>
    let names := match left with
      | .variableDeclaration decls => collectStmtDecls.collectDeclaratorIds decls names
      | _ => names
    collectStmtDecls body names
  | .forOfStatement left _ body =>
    let names := match left with
      | .variableDeclaration decls => collectStmtDecls.collectDeclaratorIds decls names
      | _ => names
    collectStmtDecls body names
  | _ => names
where
  collectStmts (stmts : AstList) (names : List String) : List String :=
    match stmts with
    | .nil => names
    | .cons s tl => collectStmts tl (collectStmtDecls s names)

/-- Parameter list fold used by the function cases of `collectDeclaredNames`. -/
def collectParamNames (params : AstList) (names : List String) : List String :=
  match params with
  | .nil => names
  | .cons p tl => collectParamNames tl (collectPatternNames p names)

/-- Models `ScopeAnalyzer.collectDeclaredNames`: the names a scope-creating node
adds to the shadow set (parameters, own function/class name, direct
`var`/`let`/`const`/hoisted-function declarations of a block or loop). -/
def collectDeclaredNames (node : Ast) (names : List String) : List String :=
  match node with
  | .functionDeclaration id params _ =>
    let names := collectParamNames params names
    match id with | some n => n :: names | none => names
  | .functionExpression id params _ =>
    let names := collectParamNames params names
    match id with | some n => n :: names | none => names
  | .arrowFunctionExpression params _ => collectParamNames params names
  | .catchClause param _ =>
    match param with
    | .hole => names
    | p => collectPatternNames p names
  | .blockStatement _ | .forStatement _ _ _ _ | .forInStatement _ _ _
  | .forOfStatement _ _ _ => collectBlockDeclarations node names
  | .classDeclaration id _ | .classExpression id _ =>
    match id with | some n => n :: names | none => names
  | _ => names

/-- Models `ScopeAnalyzer.createsScope`. -/
def createsScope (node : Ast) : Bool :=
  match node with
  | .functionDeclaration _ _ _ | .functionExpression _ _ _
  | .arrowFunctionExpression _ _ | .classDeclaration _ _ | .classExpression _ _
  | .blockStatement _ | .forStatement _ _ _ _ | .forInStatement _ _ _
  | .forOfStatement _ _ _ | .catchClause _ _ => true
  | _ => false

/-- The identifier case of `findUsageInNode` for a plain (non-key,
non-member-property) position: counts iff the name matches and is not
shadowed. -/
def identUsage (ident n : String) (sh : List String) : Bool :=
  n = ident && !(sh.contains ident)

mutual

/-- Models `ScopeAnalyzer.findUsageInNode`: depth-first walk carrying the shadow set.
An `Identifier` matching the target counts unless it is a non-shorthand
object-literal key, a non-computed member property, or currently shadowed;
a `JSXIdentifier` counts under the shadow rule alone.  A scope-creating node
extends a copy of the shadow set (via `collectDeclaredNames`) for its whole
subtree.  `ctx` stands for the parent checks (`parent.key === node` /
`parent.property === node`) of the source. -/
def findUsageInNode (ident : String) (sh : List String) (ctx : Ctx) (node : Ast) : Bool :=
  match node with
  | .identifier n =>
    if n = ident then
      match ctx with
      | .propKey shorthand => if shorthand then !(sh.contains ident) else false
      | .memberProp computed => if computed then !(sh.contains ident) else false
      | .plain => !(sh.contains ident)
    else false
  | .jsxIdentifier n => if n = ident then !(sh.contains ident) else false
  | .functionDeclaration id params body =>
    let sh' := collectDeclaredNames (.functionDeclaration id params body) sh
    (match id with | some n => identUsage ident n sh' | none => false)
      || findUsageList ident sh' params || findUsageInNode ident sh' .plain body
  | .functionExpression id params body =>
    let sh' := collectDeclaredNames (.functionExpression id params body) sh
    (match id with | some n => identUsage ident n sh' | none => false)
      || findUsageList ident sh' params || findUsageInNode ident sh' .plain body
  | .arrowFunctionExpression params body =>
    let sh' := collectDeclaredNames (.arrowFunctionExpression params body) sh
    findUsageList ident sh' params || findUsageInNode ident sh' .plain body
  | .classDeclaration id body =>
    let sh' := collectDeclaredNames (.classDeclaration id body) sh
    (match id with | some n => identUsage ident n sh' | none => false)
      || findUsageList ident sh' body
  | .classExpression id body =>
    let sh' := collectDeclaredNames (.classExpression id body) sh
    (match id with | some n => identUsage ident n sh' | none => false)
      || findUsageList ident sh' body
  | .blockStatement stmts =>
    let sh' := collectDeclaredNames (.blockStatement stmts) sh
    findUsageList ident sh' stmts
  | .forStatement init test update body =>
    let sh' := collectDeclaredNames (.forStatement init test update body) sh
    findUsageInNode ident sh' .plain init || findUsageInNode ident sh' .plain test
      || findUsageInNode ident sh' .plain update || findUsageInNode ident sh' .plain body
  | .forInStatement left right body =>
    let sh' := collectDeclaredNames (.forInStatement left right body) sh
    findUsageInNode ident sh' .plain left || findUsageInNode ident sh' .plain right
      || findUsageInNode ident sh' .plain body
  | .forOfStatement left right body =>
    let sh' := collectDeclaredNames (.forOfStatement left right body) sh
    findUsageInNode ident sh' .plain left || findUsageInNode ident sh' .plain right
      || findUsageInNode ident sh' .plain body
  | .catchClause param body =>
    let sh' := collectDeclaredNames (.catchClause param body) sh
    findUsageInNode ident sh' .plain param || findUsageInNode ident sh' .plain body
  | .property shorthand computed key value =>
    findUsageInNode ident sh (.propKey shorthand) key
      || findUsageInNode ident sh .plain value
  | .memberExpression computed obj prop =>
    findUsageInNode ident sh .plain obj
      || findUsageInNode ident sh (.memberProp computed) prop
  | .variableDeclaration decls => findUsageList ident sh decls
  | .variableDeclarator idPat init =>
    findUsageInNode ident sh .plain idPat || findUsageInNode ident sh .plain init
  | .objectPattern props => findUsageList ident sh props
  | .arrayPattern elems => findUsageList ident sh elems
  | .restElement arg => findUsageInNode ident sh .plain arg
  | .assignmentPattern left right =>
    findUsageInNode ident sh .plain left || findUsageInNode ident sh .plain right
  | .callExpression callee args =>
    findUsageInNode ident sh .plain callee || findUsageList ident sh args
  | .other _ children => findUsageList ident sh children
  | .hole => false

/-- Models `checkChildren` over a child array: each item is visited with the current
shadow set (array items are plain-positioned children). -/
def findUsageList (ident : String) (sh : List String) (l : AstList) : Bool :=
  match l with
  | .nil => false
  | .cons hd tl => findUsageInNode ident sh .plain hd || findUsageList ident sh tl

end

/-! ## The lexical (regex-based) fallback

`ScopeAnalyzer.regexFallback` and `DependencyTracer.regexIdentifierCheck`
perform a fixed sequence of global regex replacements and then a word-boundary
test.  Each replacement pass is embedded as a character scanner with the same
leftmost, non-overlapping semantics as `String.replace(/…/g, …)`; the passes
are applied in the source's order. -/

/-- After an opening quote `q`, consume `(?:[^q\\]|\\.)*` up to and including
the closing `q`; `none` when the literal is unterminated (the regex then has
no match starting at that opening quote). -/
def consumeQuoted (q : Char) : List Char → Option (List Char)
  | [] => none
  | c :: cs =>
    if c = q then some cs
    else if c = '\\' then
      match cs with
      | [] => none
      | _ :: cs' => consumeQuoted q cs'
    else consumeQuoted q cs

/-- One global pass of the quoted-literal replacement (with `q` the quote
character): each complete literal becomes a pair of double quotes, as in the
source regexes for template, single- and double-quoted strings. -/
def stripQuotedAux (q : Char) : Nat → List Char → List Char
  | 0, l => l
  | _ + 1, [] => []
  | fuel + 1, c :: cs =>
    if c = q then
      match consumeQuoted q cs with
      | some rest => '"' :: '"' :: stripQuotedAux q fuel rest
      | none => c :: stripQuotedAux q fuel cs
    else c :: stripQuotedAux q fuel cs

def stripQuoted (q : Char) (l : List Char) : List Char :=
  stripQuotedAux q l.length l

/-- Line-comment removal pass: drop everything from `//` to the end of the
line (the line terminator itself survives), as the multiline regex does. -/
def stripLineComments : Nat → List Char → List Char
  | 0, l => l
  | _ + 1, [] => []
  | fuel + 1, c :: cs =>
    match c, cs with
    | '/', '/' :: rest => stripLineComments fuel (rest.dropWhile (· ≠ '\n'))
    | _, _ => c :: stripLineComments fuel cs

/-- After `/*`, consume lazily up to and including the closing `*/`. -/
def consumeBlockComment : List Char → Option (List Char)
  | [] => none
  | c :: cs =>
    if c = '*' then
      match cs with
      | '/' :: rest => some rest
      | _ => consumeBlockComment cs
    else consumeBlockComment cs

/-- Block-comment removal pass (lazy up to the closing delimiter). -/
def stripBlockComments : Nat → List Char → List Char
  | 0, l => l
  | _ + 1, [] => []
  | fuel + 1, c :: cs =>
    match c, cs with
    | '/', '*' :: rest =>
      match consumeBlockComment rest with
      | some rest' => stripBlockComments fuel rest'
      | none => c :: stripBlockComments fuel cs
    | _, _ => c :: stripBlockComments fuel cs

/-- After an opening `/`, consume `(?:[^/\\]|\\.)+` then the closing `/` and
any trailing `[gimsuy]*` flags; `none` when there is no such literal here
(including the empty-body case `//`). -/
def consumeRegexLiteral (first : Bool) : List Char → Option (List Char)
  | [] => none
  | c :: cs =>
    if c = '/' then
      if first then none   -- `+` demands at least one body character
      else some (cs.dropWhile (fun f => f ∈ ['g', 'i', 'm', 's', 'u', 'y']))
    else if c = '\\' then
      match cs with
      | [] => none
      | _ :: cs' => consumeRegexLiteral false cs'
    else consumeRegexLiteral false cs

/-- Regex-literal replacement pass: a slash, at least one body character,
a closing slash and optional flags become a pair of double quotes. -/
def stripRegexLiterals : Nat → List Char → List Char
  | 0, l => l
  | _ + 1, [] => []
  | fuel + 1, c :: cs =>
    if c = '/' then
      match consumeRegexLiteral true cs with
      | some rest => '"' :: '"' :: stripRegexLiterals fuel rest
      | none => c :: stripRegexLiterals fuel cs
    else c :: stripRegexLiterals fuel cs

/-- The shared string/comment/regex-literal stripping pipeline, in the order
both fallbacks apply it: template literals, single quotes, double quotes,
line comments, block comments, regex literals. -/
def stripLiteralsAndComments (l : List Char) : List Char :=
  let l := stripQuoted '`' l
  let l := stripQuoted '\'' l
  let l := stripQuoted '"' l
  let l := stripLineComments l.length l
  let l := stripBlockComments l.length l
  stripRegexLiterals l.length l

/-- A character counted by the word-boundary lookarounds `[\p{L}\p{N}_$]`
(letters and digits restricted to the inputs' ASCII range, `_`, `$`). -/
def wordChar (c : Char) : Bool :=
  c.isAlpha || c.isDigit || c = '_' || c = '$'

/-- Does `target` occur here, with the following character not a word
character (the `(?![\p{L}\p{N}_$])` lookahead)? -/
def matchesAt (target : List Char) (l : List Char) : Bool :=
  target.isPrefixOf l &&
    (match (l.drop target.length).head? with
     | some c => !wordChar c
     | none => true)

/-- The Unicode-flagged word-boundary test built around the identifier:
some occurrence of `target` has no word character on either side. -/
def boundaryTestAux (target : List Char) (prev : Option Char) : List Char → Bool
  | [] => false
  | c :: cs =>
    ((match prev with | some p => !wordChar p | none => true) && matchesAt target (c :: cs))
      || boundaryTestAux target (some c) cs

def boundaryTest (target : List Char) (l : List Char) : Bool :=
  boundaryTestAux target none l

/-- Models `ScopeAnalyzer.regexFallback`: strip strings, comments and regex
literals, then the word-boundary test.  (No object-key handling here —
compare `regexIdentifierCheck` below.) -/
def regexFallback (code identifier : String) : Bool :=
  boundaryTest identifier.data (stripLiteralsAndComments code.data)

/-- Models `\s` on the fallback inputs (ASCII whitespace). -/
def jsWhitespace (c : Char) : Bool :=
  c = ' ' || c = '\t' || c = '\n' || c = '\r' || c = '\x0b' || c = '\x0c'

/-- At a `{` or `,`, try to match `\s*` + the identifier + `\s*:` with the
next character not `:`; on success return what follows the `:` (the
lookahead consumes nothing).  This is one match of
`([{,]\s*)ID(\s*:)(?!:)`. -/
def matchPropKey (target : List Char) (l : List Char) : Option (List Char) :=
  let l1 := l.dropWhile jsWhitespace
  if target.isPrefixOf l1 then
    let l2 := (l1.drop target.length).dropWhile jsWhitespace
    match l2 with
    | ':' :: rest =>
      match rest with
      | ':' :: _ => none
      | _ => some rest
    | _ => none
  else none

/-- The property-key replacement (group 1, then __REMOVED__, then group 2):
blanks out non-shorthand
object-literal key occurrences of the identifier.  (The survivors `{`/`,`,
whitespace and `:` are re-emitted; the identifier becomes `__REMOVED__`,
which the later word-boundary test cannot match when the identifier is a
plain word.) -/
def blankPropKeys (target : List Char) : Nat → List Char → List Char
  | 0, l => l
  | _ + 1, [] => []
  | fuel + 1, c :: cs =>
    if c = '{' || c = ',' then
      match matchPropKey target cs with
      | some rest =>
        (c :: (cs.takeWhile jsWhitespace)) ++ "__REMOVED__".data
          ++ ((cs.dropWhile jsWhitespace).drop target.length).takeWhile jsWhitespace
          ++ ':' :: blankPropKeys target fuel rest
      | none => c :: blankPropKeys target fuel cs
    else c :: blankPropKeys target fuel cs

/-- Models `DependencyTracer.regexIdentifierCheck`: the tracer's own fallback —
the same stripping pipeline, *plus* blanking of non-shorthand object
property keys, then the word-boundary test. -/
def regexIdentifierCheck (code identifier : String) : Bool :=
  let cleaned := stripLiteralsAndComments code.data
  let cleaned := blankPropKeys identifier.data cleaned.length cleaned
  boundaryTest identifier.data cleaned

/-- Models `/<[A-Z][a-zA-Z]*/.test(code) || /\/>/.test(code)`: the tracer's
content-based JSX detection (`[A-Z][a-zA-Z]*` needs only the initial
capital, since `*` admits the empty tail). -/
def hasLtUpper : List Char → Bool
  | c1 :: c2 :: rest => (c1 = '<' && c2.isUpper) || hasLtUpper (c2 :: rest)
  | _ => false

def hasSelfClose : List Char → Bool
  | c1 :: c2 :: rest => (c1 = '/' && c2 = '>') || hasSelfClose (c2 :: rest)
  | _ => false

def detectJsx (code : String) : Bool :=
  hasLtUpper code.data || hasSelfClose code.data

/-! ## Fragments and the usage-check boundary

A code fragment is its raw text together with the external parser's output:
`parse jsx` is the AST `parse(code, { jsx })` produces, or `none` when the
parser throws (the catch in `isModuleScopeIdentifierUsed`). -/

structure Frag : Type where
  text : String
  parse : Bool → Option Ast

/-- Models `ScopeAnalyzer.isModuleScopeIdentifierUsed`: parse the fragment and run
the scope-aware walk from an empty shadow set; on parse failure fall back to
`regexFallback`. -/
def isModuleScopeIdentifierUsed (frag : Frag) (identifier : String) (isJsx : Bool) : Bool :=
  match frag.parse isJsx with
  | some ast => findUsageInNode identifier [] .plain ast
  | none => regexFallback frag.text identifier

/-- Models `DependencyTracer.isIdentifierUsedInCode` (with its default
`useScopeAnalysis = true`): derive the JSX mode from the fragment text and
call the scope analyzer.  The analyzer already catches its own parse
failures, so the tracer's regex branch is unreachable on the default path;
no mutable state is consulted (the analyzer's `parseCache` is never read). -/
def isIdentifierUsedInCode (frag : Frag) (identifier : String) : Bool :=
  isModuleScopeIdentifierUsed frag identifier (detectJsx frag.text)

/-! ## DependencyTracer

The tracer consumes the indexer's four maps.  A map is embedded as its entry
list in insertion order (a JS `Map` iterates in insertion order and its keys
are unique).  Path resolution and `path.dirname` are collaborator calls
(`this.indexer.resolveModulePath`, `path.dirname`) and enter as an
environment. -/

/-- Models `ImportSpecifier.type` (`spec.type` strings in the source). -/
inductive SpecType : Type where
  | default
  | namespace
  | named
  | requireDefault
  | requireNamed
  deriving DecidableEq

/-- An entry of a node's `importedNames`. -/
structure ImportSpec : Type where
  type : SpecType
  localName : String
  imported : String
  deriving DecidableEq

/-- An entry of a node's `exportedNames` (`{ local, exported }`). -/
structure ExpName : Type where
  localName : String
  exported : String
  deriving DecidableEq

/-- An indexed top-level node as the tracer reads it: the enriched-node
fields `DependencyTracer` consults.  `frag` is the node's `raw` text with
its parse result; uuids are the numbered process-unique ids. -/
structure TNode : Type where
  uuid : Nat
  filePath : String
  frag : Frag
  declaredNames : List String := []
  importedNames : List ImportSpec := []
  exportedNames : List ExpName := []
  importSource : Option String := none
  exportSource : Option String := none
  isExported : Bool := false
  isDefaultExport : Bool := false

/-- The four maps handed over by the indexer (entry lists in insertion
order). -/
structure Indices : Type where
  project : List TNode
  imports : List TNode
  exports : List TNode
  declarations : List TNode

/-- Collaborator environment: `resolveModulePath` (`none` = `null`,
an unresolvable/external specifier) and `path.dirname`. -/
structure Env : Type where
  resolve : String → String → Option String
  dirname : String → String

/-- Models `Map.get`-style lookup by uuid (JS map keys are unique; `find?` returns
the unique entry when they are). -/
def lookupNode (l : List TNode) (u : Nat) : Option TNode :=
  l.find? (fun n => n.uuid = u)

/-- Models `buildFileToNodesMap().get(fp)`: the uuids of the project nodes of one
file, in insertion order (`[]` when the file has none, matching `|| []`). -/
def fileToNodes (I : Indices) (fp : String) : List Nat :=
  (I.project.filter (fun n => n.filePath = fp)).map (fun n => n.uuid)

/-- Models `buildFileToExportsMap().get(fp)`. -/
def fileToExports (I : Indices) (fp : String) : List Nat :=
  (I.exports.filter (fun n => n.filePath = fp)).map (fun n => n.uuid)

/-- Models `DependencyTracer.findMatchingImportSpecifier`: first specifier that
matches, with the source's per-specifier checks in order — `default` kind
when the name is `default`; `require-default` and `namespace` match any
name (whole-module imports); otherwise exact `imported` match. -/
def findMatchingImportSpecifier (importNode : TNode) (name : String) : Option ImportSpec :=
  importNode.importedNames.find? (fun spec =>
    (name = "default" && spec.type = SpecType.default)
      || spec.type = SpecType.requireDefault
      || spec.type = SpecType.namespace
      || spec.imported = name
      || (spec.type = SpecType.requireNamed && spec.imported = name))

/-- A hit of `findReexports`. -/
structure Reexport : Type where
  uuid : Nat
  localName : String
  exportedName : String

/-- The body of the `findReexports` loop, one file-local export node at a
time (`exportUuid` list in insertion order; each contributes its matching
exported-name entries in order, like the source's nested pushes). -/
def reexportsOf (I : Indices) (localName : String) : List Nat → List Reexport
  | [] => []
  | exportUuid :: rest =>
    (match lookupNode I.exports exportUuid with
     | none => []
     | some exportNode =>
       if exportNode.exportSource.isSome then []
       else (exportNode.exportedNames.filter (fun e => e.localName = localName)).map
         (fun e => { uuid := exportUuid, localName := e.localName, exportedName := e.exported }))
      ++ reexportsOf I localName rest

/-- Models `DependencyTracer.findReexports`: local (non-`export … from`) export
statements of `filePath` whose `local` equals `localName`. -/
def findReexports (I : Indices) (filePath localName : String) : List Reexport :=
  reexportsOf I localName (fileToExports I filePath)

/-- The body of the consumer scan, one candidate node at a time: skips
the import statement itself and empty-raw nodes, and collects a consumer whose
text uses the import's local binding, deduplicated against the running
list. -/
def scanConsumersGo (I : Indices) (importUuid : Nat) (localName : String) :
    List Nat → List Nat → List Nat
  | [], acc => acc
  | consumerUuid :: rest, acc =>
    if consumerUuid = importUuid then scanConsumersGo I importUuid localName rest acc
    else
      match lookupNode I.project consumerUuid with
      | none => scanConsumersGo I importUuid localName rest acc
      | some consumerNode =>
        if consumerNode.frag.text = "" then scanConsumersGo I importUuid localName rest acc
        else if isIdentifierUsedInCode consumerNode.frag localName then
          scanConsumersGo I importUuid localName rest (addUniq acc consumerUuid)
        else scanConsumersGo I importUuid localName rest acc

/-- The consumer scan inside the import loop of `findExternalUsage`, over
the consuming file's node list. -/
def scanConsumers (I : Indices) (importUuid : Nat) (importFile localName : String)
    (usageUuids : List Nat) : List Nat :=
  scanConsumersGo I importUuid localName (fileToNodes I importFile) usageUuids

/-- The recursive reference passed into the loop bodies: a call at the next
smaller fuel. -/
abbrev ExtRec : Type := String → String → List String → Option (List Nat × List String)

/-- The `findReexports` recursion inside the import loop: one recursive
`findExternalUsage(reexportName, importNode.filePath, visited)` per hit,
results appended (the source pushes them without a duplicate check), the
mutated visited set threaded through. -/
def reexportsLoop (recur : ExtRec) (filePath : String) :
    List Reexport → List Nat → List String → Option (List Nat × List String)
  | [], acc, visited => some (acc, visited)
  | r :: rs, acc, visited =>
    match recur r.exportedName filePath visited with
    | none => none
    | some (furtherUsage, visited') =>
      reexportsLoop recur filePath rs (acc ++ furtherUsage) visited'

/-- The body of the import loop for one import node: skip imports in the
source file itself, imports that do not resolve to the source file, and the
imports without a matching specifier; otherwise collect the consuming
file's users of the local binding and recurse through the file's
forwarding re-exports.  Returns the updated `(usageUuids, visited)`
state, or `none` when a nested recursive call ran out of fuel. -/
def importStep (I : Indices) (E : Env) (recur : ExtRec) (name sourceFilePath : String)
    (importNode : TNode) (acc : List Nat) (visited : List String) :
    Option (List Nat × List String) :=
  if importNode.filePath = sourceFilePath then some (acc, visited)
  else
    match importNode.importSource with
    | none =>   -- import-categorized nodes always carry a source string
      some (acc, visited)
    | some importSource =>
      if E.resolve importSource (E.dirname importNode.filePath) = some sourceFilePath then
        match findMatchingImportSpecifier importNode name with
        | none => some (acc, visited)
        | some matchingSpec =>
          let localName := matchingSpec.localName
          let acc := scanConsumers I importNode.uuid importNode.filePath localName acc
          reexportsLoop recur importNode.filePath
            (findReexports I importNode.filePath localName) acc visited
      else some (acc, visited)

/-- The first loop of `findExternalUsage`: every import in the project whose
resolved source is `sourceFilePath` contributes via `importStep`, the
mutated `(usageUuids, visited)` state threaded through. -/
def importsLoop (I : Indices) (E : Env) (recur : ExtRec) (name sourceFilePath : String) :
    List TNode → List Nat → List String → Option (List Nat × List String)
  | [], acc, visited => some (acc, visited)
  | importNode :: rest, acc, visited =>
    match importStep I E recur name sourceFilePath importNode acc visited with
    | none => none
    | some (acc, visited) => importsLoop I E recur name sourceFilePath rest acc visited

/-- The body of the re-export loop for one export node: an
`export … from` statement elsewhere whose source resolves to
`sourceFilePath` and whose specifier list covers `name` (or is the `*`
wildcard) triggers a recursive trace under the effective exported alias;
its results are appended without a duplicate check, as in the source. -/
def exportStep (E : Env) (recur : ExtRec) (name sourceFilePath : String)
    (exportNode : TNode) (acc : List Nat) (visited : List String) :
    Option (List Nat × List String) :=
  if exportNode.filePath = sourceFilePath then some (acc, visited)
  else
    match exportNode.exportSource with
    | none => some (acc, visited)
    | some exportSource =>
      if E.resolve exportSource (E.dirname exportNode.filePath) = some sourceFilePath then
        match exportNode.exportedNames.find?
            (fun spec => spec.localName = name || spec.localName = "*") with
        | none => some (acc, visited)
        | some matchingSpec =>
          let reexportedName := if matchingSpec.exported = "*" then name
            else matchingSpec.exported
          match recur reexportedName exportNode.filePath visited with
          | none => none
          | some (furtherUsage, visited') => some (acc ++ furtherUsage, visited')
      else some (acc, visited)

/-- The second loop of `findExternalUsage`, over the exports map. -/
def exportsLoop (E : Env) (recur : ExtRec) (name sourceFilePath : String) :
    List TNode → List Nat → List String → Option (List Nat × List String)
  | [], acc, visited => some (acc, visited)
  | exportNode :: rest, acc, visited =>
    match exportStep E recur name sourceFilePath exportNode acc visited with
    | none => none
    | some (acc, visited) => exportsLoop E recur name sourceFilePath rest acc visited

/-- Models `DependencyTracer.findExternalUsage`, fuel-indexed.  The body is the
source's: return empty when `(sourceFilePath, name)` is already visited,
otherwise mark it visited and run the import loop then the re-export loop.
The JS recursion carries no fuel; `findExtUsage_total` (claim C3) shows the
fuel-out branch is unreachable once the fuel exceeds the number of distinct
`file::name` keys, which justifies the fuel as a pure termination device. -/
def findExtFuel (I : Indices) (E : Env) : Nat → ExtRec
  | 0 => fun _ _ _ => none
  | fuel + 1 => fun name sourceFilePath visited =>
    let visitKey := sourceFilePath ++ "::" ++ name
    if visited.contains visitKey then some ([], visited)
    else
      let visited := visited ++ [visitKey]
      match importsLoop I E (findExtFuel I E fuel) name sourceFilePath I.imports [] visited with
      | none => none
      | some (usageUuids, visited) =>
        exportsLoop E (findExtFuel I E fuel) name sourceFilePath I.exports usageUuids visited

/-- All file paths occurring in the indices (the recursion only ever visits
these). -/
def fileUniv (I : Indices) : List String :=
  (I.project ++ I.imports ++ I.exports ++ I.declarations).map (fun n => n.filePath)

/-- All names the recursion can be called with, starting from `n0`: the
initial name and the exported aliases of export-map entries. -/
def nameUniv (I : Indices) (n0 : String) : List String :=
  n0 :: I.exports.flatMap (fun e => e.exportedNames.map (fun s => s.exported))

/-- Every visit key the recursion can form, starting from `n0`. -/
def keyUniv (I : Indices) (n0 : String) : List String :=
  (fileUniv I).flatMap (fun f => (nameUniv I n0).map (fun n => f ++ "::" ++ n))

/-- Fuel that `findExtUsage_total` proves sufficient for any call on `I`
starting from name `n0`. -/
def keyBound (I : Indices) (n0 : String) : Nat :=
  (keyUniv I n0).toFinset.card + 1

/-- The tracer's (total) `findExternalUsage`: the fuel-indexed recursion at
a provably sufficient fuel. -/
def findExternalUsage (I : Indices) (E : Env) (name sourceFilePath : String)
    (visited : List String) : List Nat × List String :=
  (findExtFuel I E (keyBound I name) name sourceFilePath visited).getD ([], visited)

/-- Models `DependencyTracer.findInternalUsage`: other nodes of the declaration's
own file whose text uses the name. -/
def findInternalUsageGo (I : Indices) (declarationUuid : Nat) (name : String) :
    List Nat → List Nat → List Nat
  | [], acc => acc
  | nodeUuid :: rest, acc =>
    if nodeUuid = declarationUuid then findInternalUsageGo I declarationUuid name rest acc
    else
      match lookupNode I.project nodeUuid with
      | none => findInternalUsageGo I declarationUuid name rest acc
      | some node =>
        if node.frag.text = "" then findInternalUsageGo I declarationUuid name rest acc
        else if isIdentifierUsedInCode node.frag name then
          findInternalUsageGo I declarationUuid name rest (acc ++ [nodeUuid])
        else findInternalUsageGo I declarationUuid name rest acc

def findInternalUsage (I : Indices) (declarationUuid : Nat) (name filePath : String) :
    List Nat :=
  findInternalUsageGo I declarationUuid name (fileToNodes I filePath) []

/-- Where an external-usage uuid can come from: every uuid collected by
`findExternalUsage` belongs to the file of some import node that matched a
traversed `(file, name)` key — the file differs from the key's file (the
same-file skip), and the key is in the call's final visited set.  This is
the soundness invariant behind the amended claim C1. -/
def externalWitness (I : Indices) (E : Env) (vis' : List String) (u : Nat) : Prop :=
  ∃ imp ∈ I.imports, ∃ isrc f n',
    imp.importSource = some isrc
    ∧ E.resolve isrc (E.dirname imp.filePath) = some f
    ∧ imp.filePath ≠ f
    ∧ (findMatchingImportSpecifier imp n').isSome
    ∧ (f ++ "::" ++ n') ∈ vis'
    ∧ ∃ nd ∈ I.project, nd.uuid = u ∧ nd.filePath = imp.filePath

/-- Models `DependencyTracer.isNameExported`. -/
def isNameExported (I : Indices) (name filePath : String) : Bool :=
  (fileToExports I filePath).any (fun exportUuid =>
    match lookupNode I.exports exportUuid with
    | none => false
    | some exportNode =>
      exportNode.exportedNames.any (fun e => e.localName = name || e.exported = name))

/-- Models `DependencyTracer.getExportedNamesForDeclaredName`: the node's own
export mapping, else the file's separate export statements, else the
declared name itself. -/
def getExportedNamesForDeclaredName (I : Indices) (declaredName : String) (node : TNode) :
    List String :=
  let own := (node.exportedNames.filter (fun e => e.localName = declaredName)).map
    (fun e => e.exported)
  let fromFile :=
    if own = [] then
      (fileToExports I node.filePath).foldl (fun acc exportUuid =>
        match lookupNode I.exports exportUuid with
        | none => acc
        | some exportNode =>
          acc ++ (exportNode.exportedNames.filter
            (fun e => e.localName = declaredName)).map (fun e => e.exported)) []
    else own
  if fromFile = [] then [declaredName] else fromFile

/-- The computed `dependant` of one declaration: `internal` a list with the
`includes` check, `external` the key set of the `{ consumingUuid: true }`
object (insertion-ordered, set semantics). -/
structure Dependant : Type where
  internal : List Nat
  external : List Nat

/-- Models `DependencyTracer.traceDeclaration`. -/
def traceDeclaration (I : Indices) (E : Env) (node : TNode) : Dependant :=
  node.declaredNames.foldl (fun result name =>
    let internalUuids := findInternalUsage I node.uuid name node.filePath
    let result := { result with
      internal := internalUuids.foldl addUniq result.internal }
    if node.isExported || isNameExported I name node.filePath then
      (getExportedNamesForDeclaredName I name node).foldl (fun result exportedName =>
        let externalUuids := (findExternalUsage I E exportedName node.filePath []).1
        { result with external := externalUuids.foldl addUniq result.external }) result
    else result) { internal := [], external := [] }

/-! ## ProjectIndexer (part 1): patterns and statement descriptors

The indexer walks each file's top-level statements (parser output).  The
statement shapes it inspects are embedded as `Stmt`; binding patterns as
`Pat` (with explicit list types so all recursions are structural). -/

mutual

inductive Pat : Type where
  | ident (name : String)
  | objectP (props : PatProps)
  | arrayP (elems : PatElems)
  | restP (arg : Pat)
  | assignP (left : Pat)
  | otherPat
  deriving DecidableEq

/-- Models `ObjectPattern.properties`: `Property` nodes carry `key?.name` and the
value pattern, `RestElement` its argument. -/
inductive PatProps : Type where
  | nil
  | consProp (key : Option String) (value : Pat) (tl : PatProps)
  | consRest (arg : Pat) (tl : PatProps)
  deriving DecidableEq

/-- Models `ArrayPattern.elements` (with `null` holes). -/
inductive PatElems : Type where
  | nil
  | consSome (e : Pat) (tl : PatElems)
  | consNull (tl : PatElems)
  deriving DecidableEq

end

mutual

/-- Models `ProjectIndexer.extractPatternNames` (document order). -/
def extractPatternNames : Pat → List String
  | .ident n => [n]
  | .objectP props => extractPatternNamesProps props
  | .arrayP elems => extractPatternNamesElems elems
  | .restP arg => extractPatternNames arg
  | .assignP left => extractPatternNames left
  | .otherPat => []

def extractPatternNamesProps : PatProps → List String
  | .nil => []
  | .consProp _ value tl => extractPatternNames value ++ extractPatternNamesProps tl
  | .consRest arg tl => extractPatternNames arg ++ extractPatternNamesProps tl

def extractPatternNamesElems : PatElems → List String
  | .nil => []
  | .consSome e tl => extractPatternNames e ++ extractPatternNamesElems tl
  | .consNull tl => extractPatternNamesElems tl

end

/-- Models `prop.value?.name`: the name when the pattern is a plain identifier. -/
def patIdentName : Pat → Option String
  | .ident n => some n
  | _ => none

/-- The shapes `extractRequireSource` distinguishes in a declarator's
initializer: `require('lit')`, `require('lit').something`, anything else,
or no initializer. -/
inductive InitExpr : Type where
  | requireCall (source : String)
  | requireMember (source : String)
  | plainInit
  | noInit
  deriving DecidableEq

/-- Models `ProjectIndexer.extractRequireSource`. -/
def extractRequireSource : InitExpr → Option String
  | .requireCall s => some s
  | .requireMember s => some s
  | .plainInit => none
  | .noInit => none

/-- The declaration payload of an export statement (`node.declaration`):
the shapes `extractDeclarationNames` and `getDefaultExportName` inspect. -/
inductive DeclNode : Type where
  | varDecl (declarators : List (Pat × InitExpr))
  | funcDecl (id : Option String)
  | classDecl (id : Option String)
  | tsAliasDecl (id : Option String)
  | tsInterfaceDecl (id : Option String)
  | tsEnumDecl (id : Option String)
  | identifierD (name : String)
  | exprDecl
  deriving DecidableEq

/-- Models `ProjectIndexer.extractDeclarationNames` (note: no `TSModuleDeclaration`
case here — the source's switch omits it). -/
def extractDeclarationNames : DeclNode → List String
  | .varDecl ds => ds.flatMap (fun d => extractPatternNames d.1)
  | .funcDecl id | .classDecl id | .tsAliasDecl id
  | .tsInterfaceDecl id | .tsEnumDecl id =>
    match id with | some n => [n] | none => []
  | .identifierD n => [n]
  | .exprDecl => []

/-- Models `ProjectIndexer.getDefaultExportName`: `decl.id?.name`, else an
`Identifier` declaration's own name, else `default`. -/
def getDefaultExportName : Option DeclNode → String
  | none => "default"
  | some d =>
    match d with
    | .funcDecl (some n) | .classDecl (some n) | .tsAliasDecl (some n)
    | .tsInterfaceDecl (some n) | .tsEnumDecl (some n) => n
    | .identifierD n => n
    | _ => "default"

/-- An `ImportDeclaration` specifier as the parser hands it over. -/
inductive RawImportSpec : Type where
  | defaultSpec (localName : String)
  | namespaceSpec (localName : String)
  | namedSpec (localName imported : String)
  deriving DecidableEq

/-- An export specifier (`spec.local.name`, `spec.exported.name`). -/
structure RawExportSpec : Type where
  localName : String
  exported : String
  deriving DecidableEq

/-- A `Property` of an object literal on the right of `module.exports = {…}`:
`key?.name` and `value?.name`. -/
inductive ObjProp : Type where
  | propOP (key : Option String) (valueName : Option String)
  | otherOP
  deriving DecidableEq

/-- The right-hand shapes the CommonJS-export handling distinguishes. -/
inductive RightShape : Type where
  | identR (name : String)
  | objectR (props : List ObjProp)
  | otherR
  deriving DecidableEq

/-- The left of a top-level assignment: a member expression's
`object?.name` / `property?.name`, or anything else. -/
inductive LeftShape : Type where
  | member (objName : Option String) (propName : Option String)
  | otherLeft
  deriving DecidableEq

/-- The expression of an `ExpressionStatement`, as far as the indexer looks. -/
inductive ExprShape : Type where
  | assign (left : LeftShape) (right : RightShape)
  | otherE
  deriving DecidableEq

/-- A top-level statement descriptor (the parser's AST node, restricted to
the fields `extractNodeDetails`/`categorizeNode` read). -/
inductive Stmt : Type where
  | importDecl (source : String) (specifiers : List RawImportSpec)
  | exportNamed (source : Option String) (declaration : Option DeclNode)
      (specifiers : List RawExportSpec)
  | exportDefault (declaration : Option DeclNode)
  | exportAll (source : String) (exportedAs : Option String)
  | variableStmt (declarators : List (Pat × InitExpr))
  | functionStmt (id : Option String)
  | classStmt (id : Option String)
  | tsTypeAlias (id : Option String)
  | tsInterface (id : Option String)
  | tsEnum (id : Option String)
  | tsModule (id : Option String)
  | expressionStmt (expr : ExprShape)
  | otherStmt
  deriving DecidableEq

/-- The `details` record `extractNodeDetails` fills in. -/
structure Details : Type where
  names : List String := []
  isExported : Bool := false
  isDefaultExport : Bool := false
  exportedNames : List ExpName := []
  importedNames : List ImportSpec := []
  declaredNames : List String := []
  importSource : Option String := none
  exportSource : Option String := none
  isRequireImport : Bool := false
  deriving DecidableEq

/-- Models `ProjectIndexer.extractImportSpecifiers`. -/
def extractImportSpecifiers (specifiers : List RawImportSpec) : List ImportSpec :=
  specifiers.map (fun s =>
    match s with
    | .defaultSpec l => { type := .default, localName := l, imported := "default" }
    | .namespaceSpec l => { type := .namespace, localName := l, imported := "*" }
    | .namedSpec l i => { type := .named, localName := l, imported := i })

/-- Models `ProjectIndexer.extractExportSpecifiers`. -/
def extractExportSpecifiers (specifiers : List RawExportSpec) : List ExpName :=
  specifiers.map (fun s => { localName := s.localName, exported := s.exported })

/-- The require-import handling of the `VariableDeclaration` case: for each
declarator whose initializer is a `require(…)` call, record the source and
build `require-default` / `require-named` specifiers from the binding
pattern.  (The source also computes `extractPatternNames(declarator.id)`
into an unused local there.) -/
def applyRequireDeclarators (ds : List (Pat × InitExpr)) (details : Details) : Details :=
  ds.foldl (fun details d =>
    match extractRequireSource d.2 with
    | none => details
    | some requireSource =>
      let details := { details with
        importSource := some requireSource, isRequireImport := true }
      match d.1 with
      | .ident n =>
        { details with importedNames := details.importedNames
            ++ [{ type := .requireDefault, localName := n, imported := "default" }] }
      | .objectP props => { details with importedNames :=
          details.importedNames ++ requireNamedSpecs props }
      | _ => details) details
where
  requireNamedSpecs : PatProps → List ImportSpec
    | .nil => []
    | .consProp key value tl =>
      (match key with
       | some k =>
         [{ type := .requireNamed, localName := (patIdentName value).getD k, imported := k }]
       | none => []) ++ requireNamedSpecs tl
    | .consRest _ tl => requireNamedSpecs tl

/-- The CommonJS branch of the `ExpressionStatement` case. -/
def applyCjsAssignment (e : ExprShape) (details : Details) : Details :=
  match e with
  | .assign (.member objName propName) right =>
    let details :=
      if objName = some ("module") && propName = some ("exports") then
        let details := { details with isExported := true, isDefaultExport := true }
        match right with
        | .identR n =>
          { details with
              exportedNames := [{ localName := n, exported := "default" }],
              names := [n, "default"] }
        | .objectR props =>
          props.foldl (fun details p =>
            match p with
            | .propOP (some k) valueName =>
              { details with
                exportedNames := details.exportedNames
                  ++ [{ localName := valueName.getD k, exported := k }],
                names := details.names ++ [k] }
            | _ => details) details
        | .otherR =>
          { details with
              exportedNames := [{ localName := "default", exported := "default" }],
              names := ["default"] }
      else details
    if objName = some ("exports") then
      match propName with
      | some exported =>
        let localName := match right with | .identR n => n | _ => exported
        { details with
            isExported := true,
            exportedNames := [{ localName := localName, exported := exported }],
            names := [exported] }
      | none => details
    else details
  | _ => details

/-- Models `ProjectIndexer.extractNodeDetails`. -/
def extractNodeDetails (stmt : Stmt) : Details :=
  match stmt with
  | .importDecl source specifiers =>
    let importedNames := extractImportSpecifiers specifiers
    { importSource := some source, importedNames := importedNames,
      names := importedNames.map (fun s => s.localName) }
  | .exportNamed source declaration specifiers =>
    match source with
    | some src =>
      let exportedNames := extractExportSpecifiers specifiers
      { isExported := true, exportSource := some src, exportedNames := exportedNames,
        names := exportedNames.map (fun s => s.exported) }
    | none =>
      match declaration with
      | some decl =>
        let declared := extractDeclarationNames decl
        { isExported := true, declaredNames := declared,
          exportedNames := declared.map (fun n => { localName := n, exported := n }),
          names := declared }
      | none =>
        let exportedNames := extractExportSpecifiers specifiers
        { isExported := true, exportedNames := exportedNames,
          names := exportedNames.map (fun s => s.exported) }
  | .exportDefault declaration =>
    let base : Details :=
      { isExported := true,
        isDefaultExport := true,
        exportedNames := [{ localName := getDefaultExportName declaration, exported := "default" }],
        names := ["default"] }
    match declaration with
    | some decl =>
      let declared := extractDeclarationNames decl
      if declared ≠ [] then
        { base with declaredNames := declared, names := base.names ++ declared }
      else base
    | none => base
  | .exportAll source exportedAs =>
    { isExported := true, exportSource := some source,
      exportedNames := [{ localName := "*", exported := exportedAs.getD ("*") }],
      names := ["*"] }
  | .variableStmt declarators =>
    let declared := declarators.flatMap (fun d => extractPatternNames d.1)
    applyRequireDeclarators declarators
      { declaredNames := declared, names := declared }
  | .functionStmt id | .classStmt id | .tsTypeAlias id | .tsInterface id
  | .tsEnum id | .tsModule id =>
    (match id with
     | some n => { declaredNames := [n], names := [n] }
     | none => {})
  | .expressionStmt e => applyCjsAssignment e {}
  | .otherStmt => {}

/-- Which of the specialized maps a node joins. -/
structure Cat : Type where
  intoImports : Bool
  intoExports : Bool
  intoDeclarations : Bool
  deriving DecidableEq

/-- Models `ProjectIndexer.categorizeNode` (the `project` map always receives the
node; this computes the specialized maps). -/
def categorizeNode (stmt : Stmt) (details : Details) : Cat :=
  match stmt with
  | .importDecl _ _ => { intoImports := true, intoExports := false, intoDeclarations := false }
  | .exportNamed _ declaration _ =>
    { intoImports := false, intoExports := true,
      intoDeclarations := declaration.isSome && details.declaredNames ≠ [] }
  | .exportDefault declaration =>
    { intoImports := false, intoExports := true,
      intoDeclarations := declaration.isSome && details.declaredNames ≠ [] }
  | .exportAll _ _ =>
    -- an `ExportAllDeclaration` has no `declaration` child
    { intoImports := false, intoExports := true, intoDeclarations := false }
  | .variableStmt _ | .functionStmt _ | .classStmt _ | .tsTypeAlias _
  | .tsInterface _ | .tsEnum _ | .tsModule _ =>
    { intoImports := details.isRequireImport, intoExports := false, intoDeclarations := true }
  | .expressionStmt e =>
    match e with
    | .assign (.member objName propName) _ =>
      { intoImports := false,
        intoExports := (objName = some ("module") && propName = some ("exports"))
          || objName = some ("exports"),
        intoDeclarations := false }
    | _ => { intoImports := false, intoExports := false, intoDeclarations := false }
  | .otherStmt => { intoImports := false, intoExports := false, intoDeclarations := false }

/-! ## ProjectIndexer (part 2): indexing all files -/

/-- A loader record plus the front end's parse result for the file's text
(`none` when `parse` threw — `indexAll` catches per-file errors). -/
structure SrcFile : Type where
  absolutePath : String
  relativePath : String
  extension : String
  parsed : Option (List Stmt)

/-- An indexed node: uuid, owning file, statement and extracted details.
(`uuidv4()` yields process-unique opaque ids; a counter models that.) -/
structure Entry : Type where
  uuid : Nat
  filePath : String
  relativePath : String
  stmt : Stmt
  details : Details
  deriving DecidableEq

/-- The four maps under construction. -/
structure IndexSt : Type where
  nextUuid : Nat
  project : List Entry
  imports : List Entry
  exports : List Entry
  declarations : List Entry

/-- Models `ProjectIndexer.indexFile` (after a successful parse): one entry per
top-level statement, added to `project` and to the categorized maps. -/
def indexFileSt (st : IndexSt) (fp rp : String) (stmts : List Stmt) : IndexSt :=
  stmts.foldl (fun st stmt =>
    let d := extractNodeDetails stmt
    let e : Entry :=
      { uuid := st.nextUuid, filePath := fp, relativePath := rp, stmt := stmt, details := d }
    let c := categorizeNode stmt d
    { nextUuid := st.nextUuid + 1,
      project := st.project ++ [e],
      imports := if c.intoImports then st.imports ++ [e] else st.imports,
      exports := if c.intoExports then st.exports ++ [e] else st.exports,
      declarations := if c.intoDeclarations then st.declarations ++ [e] else st.declarations }) st

def codeExtensions : List String := [".js", ".jsx", ".ts", ".tsx"]

/-- Models `ProjectIndexer.indexAll`: code files only, each indexed inside a
try/catch — a file whose parse failed is skipped and contributes nothing. -/
def indexAll (files : List SrcFile) : IndexSt :=
  (files.filter (fun f => codeExtensions.contains f.extension)).foldl (fun st f =>
    match f.parsed with
    | none => st
    | some stmts => indexFileSt st f.absolutePath f.relativePath stmts)
    { nextUuid := 0, project := [], imports := [], exports := [], declarations := [] }

/-! ## ProjectIndexer (part 3): module-path resolution

File-system probing (`fs.existsSync`/`statSync().isFile()`), `path.resolve`,
`path.join` and the alias table loaded from the project config are
collaborator inputs, wrapped in `FsEnv`.  `aliasRewrite` is the first
matching rule of the alias-table loop: it yields the rewritten specifier
and the new `fromDir` (`path.dirname(replacement)`). -/

structure FsEnv : Type where
  aliasRewrite : String → Option (String × String)
  srcPath : String
  baseUrl : Option String
  isFile : String → Bool
  pathResolve : String → String → String
  pathJoin : String → String → String

/-- The fixed probe order of `resolveModulePath`. -/
def probeExtensions : List String :=
  ["", ".ts", ".tsx", ".js", ".jsx", "/index.ts", "/index.tsx", "/index.js", "/index.jsx"]

/-- The extension/`index.*` probing loop: the first candidate that exists as
a regular file. -/
def probeFile (fs : FsEnv) (resolved : String) : Option String :=
  (probeExtensions.map (fun ext => resolved ++ ext)).find? fs.isFile

/-- Models `ProjectIndexer.resolveModulePath` (`none` = the source's `null`,
an external package). -/
def resolveModulePath (fs : FsEnv) (source fromDir : String) : Option String :=
  -- (1) alias table (first matching rule, then `break`)
  let p := match fs.aliasRewrite source with
    | some sd => sd
    | none => (source, fromDir)
  -- (2) `@/` then `~/` root-relative prefixes
  let p := match p.1.data with
    | '@' :: '/' :: rest => (String.mk ('.' :: '/' :: rest), fs.srcPath)
    | _ => p
  let p := match p.1.data with
    | '~' :: '/' :: rest => (String.mk ('.' :: '/' :: rest), fs.srcPath)
    | _ => p
  -- (3) relative or absolute specifiers: probe against `fromDir`
  if (match p.1.data with | c :: _ => c = '.' || c = '/' | [] => false) then
    let resolved := fs.pathResolve p.2 p.1
    match probeFile fs resolved with
    | some candidate => some candidate
    | none => some resolved
  else
    -- (4) bare specifiers: probe against the configured baseUrl
    match fs.baseUrl with
    | some b =>
      (match probeFile fs (fs.pathJoin b p.1) with
       | some candidate => some candidate
       | none => none)   -- (5) external package
    | none => none

/-! ## Specification-side resolver (for the C7 refinement comparison)

The following definitions follow the wording of spec §4.1 — an ordered
composition of five stages — to be compared against `resolveModulePath`
above, which is translated from the source. -/

/-- Stage (1) of the spec wording: the configured alias-table rewrite. -/
def specAliasStage (fs : FsEnv) (p : String × String) : String × String :=
  match fs.aliasRewrite p.1 with
  | some sd => sd
  | none => p

/-- Stage (2) of the spec wording: the conventional root-relative prefixes,
each redirecting resolution to the configured source root. -/
def specRootPrefixStage (fs : FsEnv) (p : String × String) : String × String :=
  let p := match p.1.data with
    | '@' :: '/' :: rest => (String.mk ('.' :: '/' :: rest), fs.srcPath)
    | _ => p
  match p.1.data with
  | '~' :: '/' :: rest => (String.mk ('.' :: '/' :: rest), fs.srcPath)
  | _ => p

/-- Is the specifier still relative or absolute after stages (1)–(2)? -/
def specIsPathLike (s : String) : Bool :=
  match s.data with
  | c :: _ => c = '.' || c = '/'
  | [] => false

/-- Stages (3)–(5) of the spec wording composed after (1)–(2): a relative or
absolute specifier probes the fixed extension list against the computed path
and falls back to that path itself; a bare specifier probes the configured
base directory; otherwise the result is unresolved (an external package). -/
def resolveModulePathSpec (fs : FsEnv) (source fromDir : String) : Option String :=
  let p := specRootPrefixStage fs (specAliasStage fs (source, fromDir))
  if specIsPathLike p.1 then
    some ((probeFile fs (fs.pathResolve p.2 p.1)).getD (fs.pathResolve p.2 p.1))
  else
    fs.baseUrl.bind (fun b => probeFile fs (fs.pathJoin b p.1))

/-! ## Concrete projects used by the claims

The fragments' ASTs are the parser's output for the quoted texts (the
syntax front end is an external collaborator; each AST below is the ESTree
shape of its `text`). -/

/-- AST of `export const v = 1`. -/
def astExportV : Ast :=
  .other ("Program") (.cons (.other ("ExportNamedDeclaration") (.cons
    (.variableDeclaration (.cons
      (.variableDeclarator (.identifier ("v")) (.other ("Literal") .nil)) .nil)) .nil)) .nil)

/-- AST of `import { v as w } from "./B"`. -/
def astImportVasW : Ast :=
  .other ("Program") (.cons (.other ("ImportDeclaration") (.cons
    (.other ("ImportSpecifier") (.cons (.identifier ("v")) (.cons (.identifier ("w")) .nil)))
    (.cons (.other ("Literal") .nil) .nil))) .nil)

/-- AST of `const r = w + 1`. -/
def astConstRW : Ast :=
  .other ("Program") (.cons (.variableDeclaration (.cons
    (.variableDeclarator (.identifier ("r"))
      (.other ("BinaryExpression") (.cons (.identifier ("w"))
        (.cons (.other ("Literal") .nil) .nil)))) .nil)) .nil)

/-! ### The C1 counterexample project: a re-export cycle back into the
declaring file.

File `/A.ts` holds the declaration `export const v = 1`, an import
`import { v as w } from "./B"` and a consumer `const r = w + 1`;
file `/B.ts` re-exports `v` from `/A.ts`.  Tracing `v` follows the
re-export into `/B.ts` and from there finds the import *in `/A.ts`
itself*, so a node of the declaration's own file lands in `external`. -/

def cycDecl : TNode where
  uuid := 1
  filePath := "/A.ts"
  frag := { text := "export const v = 1", parse := fun _ => some astExportV }
  declaredNames := ["v"]
  exportedNames := [{ localName := "v", exported := "v" }]
  isExported := true

def cycImport : TNode where
  uuid := 2
  filePath := "/A.ts"
  frag := { text := "import { v as w } from \"./B\"", parse := fun _ => some astImportVasW }
  importedNames := [{ type := .named, localName := "w", imported := "v" }]
  importSource := some ("./B")

def cycUse : TNode where
  uuid := 3
  filePath := "/A.ts"
  frag := { text := "const r = w + 1", parse := fun _ => some astConstRW }
  declaredNames := ["r"]

def cycReexport : TNode where
  uuid := 4
  filePath := "/B.ts"
  frag := { text := "export { v } from \"./A\"", parse := fun _ => none }
  exportedNames := [{ localName := "v", exported := "v" }]
  exportSource := some ("./A")
  isExported := true

def cycIndices : Indices where
  project := [cycDecl, cycImport, cycUse, cycReexport]
  imports := [cycImport]
  exports := [cycDecl, cycReexport]
  declarations := [cycDecl, cycUse]

def cycEnv : Env where
  resolve := fun s _ =>
    if s = "./A" then some ("/A.ts") else if s = "./B" then some ("/B.ts") else none
  dirname := fun _ => "/"

/-! ### The C4 shadowing project (spec §8's shadowing test). -/

/-- AST of `export const shadowed = "x"`. -/
def astExportShadowed : Ast :=
  .other ("Program") (.cons (.other ("ExportNamedDeclaration") (.cons
    (.variableDeclaration (.cons
      (.variableDeclarator (.identifier ("shadowed")) (.other ("Literal") .nil)) .nil)) .nil)) .nil)

/-- AST of `function f(){ const shadowed = "y"; console.log(shadowed); }`. -/
def astShadowF : Ast :=
  .other ("Program") (.cons (.functionDeclaration (some ("f")) .nil
    (.blockStatement (.cons
      (.variableDeclaration (.cons
        (.variableDeclarator (.identifier ("shadowed")) (.other ("Literal") .nil)) .nil))
      (.cons (.other ("ExpressionStatement") (.cons
        (.callExpression
          (.memberExpression false (.identifier ("console")) (.identifier ("log")))
          (.cons (.identifier ("shadowed")) .nil)) .nil)) .nil)))) .nil)

/-- AST of `function g(){ console.log(shadowed); }`. -/
def astShadowG : Ast :=
  .other ("Program") (.cons (.functionDeclaration (some ("g")) .nil
    (.blockStatement (.cons (.other ("ExpressionStatement") (.cons
      (.callExpression
        (.memberExpression false (.identifier ("console")) (.identifier ("log")))
        (.cons (.identifier ("shadowed")) .nil)) .nil)) .nil))) .nil)

def shadowDecl : TNode where
  uuid := 0
  filePath := "/shadow.ts"
  frag := { text := "export const shadowed = \"x\"", parse := fun _ => some astExportShadowed }
  declaredNames := ["shadowed"]
  exportedNames := [{ localName := "shadowed", exported := "shadowed" }]
  isExported := true

def shadowF : TNode where
  uuid := 1
  filePath := "/shadow.ts"
  frag := { text := "function f(){ const shadowed = 2; console.log(shadowed); }",
            parse := fun _ => some astShadowF }
  declaredNames := ["f"]

def shadowG : TNode where
  uuid := 2
  filePath := "/shadow.ts"
  frag := { text := "function g(){ console.log(shadowed); }",
            parse := fun _ => some astShadowG }
  declaredNames := ["g"]

def shadowIndices : Indices where
  project := [shadowDecl, shadowF, shadowG]
  imports := []
  exports := [shadowDecl]
  declarations := [shadowDecl, shadowF, shadowG]

def shadowEnv : Env where
  resolve := fun _ _ => none
  dirname := fun _ => "/"

/-! ### The C5 namespace-import project (spec §8's namespace test). -/

/-- AST of `export const alpha = 1`. -/
def astExportAlpha : Ast :=
  .other ("Program") (.cons (.other ("ExportNamedDeclaration") (.cons
    (.variableDeclaration (.cons
      (.variableDeclarator (.identifier ("alpha")) (.other ("Literal") .nil)) .nil)) .nil)) .nil)

/-- AST of `const a = NS.alpha;`. -/
def astUseNS : Ast :=
  .other ("Program") (.cons (.variableDeclaration (.cons
    (.variableDeclarator (.identifier ("a"))
      (.memberExpression false (.identifier ("NS")) (.identifier ("alpha")))) .nil)) .nil)

def nsDecl : TNode where
  uuid := 0
  filePath := "/m.ts"
  frag := { text := "export const alpha = 1", parse := fun _ => some astExportAlpha }
  declaredNames := ["alpha"]
  exportedNames := [{ localName := "alpha", exported := "alpha" }]
  isExported := true

def nsImport : TNode where
  uuid := 1
  filePath := "/c.ts"
  frag := { text := "import * as NS from \"./m\"", parse := fun _ => none }
  importedNames := [{ type := .namespace, localName := "NS", imported := "*" }]
  importSource := some ("./m")

def nsUse : TNode where
  uuid := 2
  filePath := "/c.ts"
  frag := { text := "const a = NS.alpha;", parse := fun _ => some astUseNS }
  declaredNames := ["a"]

def nsIndices : Indices where
  project := [nsDecl, nsImport, nsUse]
  imports := [nsImport]
  exports := [nsDecl]
  declarations := [nsDecl, nsUse]

def nsEnv : Env where
  resolve := fun s _ => if s = "./m" then some ("/m.ts") else none
  dirname := fun _ => "/"

/-! ### The C8 counterexample fragment: a fragment the parser rejects whose
text contains the identifier only as a non-shorthand object key. -/

def c8Text : String := "const o = { alpha: 1 };]"

/-- The parser throws on `c8Text` (the stray closing bracket), so every
parse mode yields `none`. -/
def c8Frag : Frag where
  text := c8Text
  parse := fun _ => none

/-! ### The C2 re-export chain family (spec §8's chain test).

`lvlFile k` is the file of chain level `k` (named with a unary index so the
paths are pairwise distinct); level 0 declares and exports `v`, level `k+1`
re-exports `v` from level `k`, and a consumer file imports `v` from level
`N` and uses it. -/

def lvlFile (k : Nat) : String :=
  "/level" ++ String.mk (List.replicate k 'x') ++ ".ts"

def lvlSrc (k : Nat) : String :=
  "./level" ++ String.mk (List.replicate k 'x')

def consumerFile : String := "/consumer.ts"

/-- Chain resolution: a relative specifier `./p` resolves to `/p.ts`
(all chain specifiers have this shape). -/
def chainEnv : Env where
  resolve := fun s _ =>
    match s.data with
    | '.' :: '/' :: rest => some (String.mk ('/' :: rest) ++ ".ts")
    | _ => none
  dirname := fun _ => "/"

def chainDeclNode : TNode where
  uuid := 0
  filePath := lvlFile 0
  frag := { text := "export const v = 1", parse := fun _ => some astExportV }
  declaredNames := ["v"]
  exportedNames := [{ localName := "v", exported := "v" }]
  isExported := true

/-- The re-export node of level `i + 1`, forwarding `v` from level `i`. -/
def chainReexportNode (i : Nat) : TNode where
  uuid := i + 1
  filePath := lvlFile (i + 1)
  frag := { text := "export { v } from \"./level…\"", parse := fun _ => none }
  exportedNames := [{ localName := "v", exported := "v" }]
  exportSource := some (lvlSrc i)
  isExported := true

/-- AST of `const r = v + 1`. -/
def astConstRV : Ast :=
  .other ("Program") (.cons (.variableDeclaration (.cons
    (.variableDeclarator (.identifier ("r"))
      (.other ("BinaryExpression") (.cons (.identifier ("v"))
        (.cons (.other ("Literal") .nil) .nil)))) .nil)) .nil)

def chainImportNode (N : Nat) : TNode where
  uuid := N + 1
  filePath := consumerFile
  frag := { text := "import { v } from \"./level…\"", parse := fun _ => none }
  importedNames := [{ type := .named, localName := "v", imported := "v" }]
  importSource := some (lvlSrc N)

def chainUseNode (N : Nat) : TNode where
  uuid := N + 2
  filePath := consumerFile
  frag := { text := "const r = v + 1", parse := fun _ => some astConstRV }
  declaredNames := ["r"]

def chainIndices (N : Nat) : Indices where
  project := chainDeclNode ::
    ((List.range N).map chainReexportNode ++ [chainImportNode N, chainUseNode N])
  imports := [chainImportNode N]
  exports := chainDeclNode :: (List.range N).map chainReexportNode
  declarations := [chainDeclNode, chainUseNode N]

/-! ### Concrete indexer inputs (C6, C9). -/

/-- The statement `module.exports = X`. -/
def cjsExportStmt : Stmt :=
  .expressionStmt (.assign (.member (some ("module")) (some ("exports"))) (.identR ("X")))

def c6File : SrcFile where
  absolutePath := "/cjs.js"
  relativePath := "cjs.js"
  extension := ".js"
  parsed := some [cjsExportStmt]

/-- A file that parses: `export const alpha = 1`. -/
def c9Good : SrcFile where
  absolutePath := "/good.ts"
  relativePath := "good.ts"
  extension := ".ts"
  parsed := some [.exportNamed none (some (.varDecl [(.ident ("alpha"), .plainInit)])) []]

/-- A file whose text fails to parse (`parse` threw). -/
def c9Bad : SrcFile where
  absolutePath := "/bad.ts"
  relativePath := "bad.ts"
  extension := ".ts"
  parsed := none

/-! # Theorems -/

/-! ## List helpers -/

theorem mem_addUniq {l : List Nat} {u x : Nat} : x ∈ addUniq l u ↔ x ∈ l ∨ x = u := by
  unfold addUniq
  split
  · constructor
    · exact Or.inl
    · rintro (h | rfl) <;> assumption
  · simp [or_comm]

theorem addUniq_nodup {l : List Nat} {u : Nat} (h : l.Nodup) : (addUniq l u).Nodup := by
  unfold addUniq
  split
  · exact h
  · simpa [List.nodup_append] using ⟨h, by assumption⟩

theorem foldl_addUniq_mem {u : Nat} : ∀ (l init : List Nat),
    u ∈ l.foldl addUniq init ↔ u ∈ init ∨ u ∈ l := by
  intro l
  induction l with
  | nil => simp
  | cons x xs ih =>
    intro init
    simp only [List.foldl_cons, ih, mem_addUniq, List.mem_cons]
    tauto

theorem foldl_addUniq_nodup : ∀ (l init : List Nat), init.Nodup →
    (l.foldl addUniq init).Nodup := by
  intro l
  induction l with
  | nil => simpa
  | cons x xs ih => intro init h; exact ih _ (addUniq_nodup h)

/-! ## Claim C4 — shadowing-aware usage detection -/

/-- Claim C4: with `export const shadowed = "x"`, a function `f` that
redeclares `shadowed` locally before using it and a function `g` that uses
it without redeclaring, `internal(shadowed)` is exactly the id of `g`'s
node (uuid 2): the scope-aware walk rejects the shadowed occurrence inside
`f` and accepts the free occurrence inside `g`. -/
theorem c4_shadowing_aware_usage :
    (traceDeclaration shadowIndices shadowEnv shadowDecl).internal = [2]
    ∧ (traceDeclaration shadowIndices shadowEnv shadowDecl).external = []
    ∧ findUsageInNode ("shadowed") [] .plain astShadowF = false
    ∧ findUsageInNode ("shadowed") [] .plain astShadowG = true :=
  ⟨by decide, by decide, by decide, by decide⟩

/-! ## Claim C5 — namespace / whole-module import matching -/

/-- Claim C5: a namespace (`import * as NS`) or require-default specifier
matches every requested name in `findMatchingImportSpecifier`, and in the
concrete project `import * as NS from "./m"; const a = NS.alpha;` the
`const a` node (uuid 2) is recorded as the external consumer of `alpha`. -/
theorem c5_namespace_import_matches_any_name :
    (∀ (imp : TNode) (name : String),
      (∃ spec ∈ imp.importedNames,
        spec.type = SpecType.namespace ∨ spec.type = SpecType.requireDefault) →
      (findMatchingImportSpecifier imp name).isSome)
    ∧ (traceDeclaration nsIndices nsEnv nsDecl).external = [2]
    ∧ (traceDeclaration nsIndices nsEnv nsDecl).internal = [] := by
  refine ⟨?_, by decide, by decide⟩
  rintro imp name ⟨spec, hmem, hty⟩
  rw [findMatchingImportSpecifier, List.find?_isSome]
  refine ⟨spec, hmem, ?_⟩
  rcases hty with h | h <;> simp [h]

/-- Witness for C5: the namespace specifier of the concrete project matches
the name `beta` (which `/m.ts` never even exports), and the concrete
external-consumer fact. -/
theorem c5_namespace_import_witness :
    (findMatchingImportSpecifier nsImport ("beta")).isSome
    ∧ (traceDeclaration nsIndices nsEnv nsDecl).external = [2] :=
  ⟨c5_namespace_import_matches_any_name.1 nsImport ("beta")
      ⟨{ type := .namespace, localName := "NS", imported := "*" }, by decide, Or.inl rfl⟩,
    c5_namespace_import_matches_any_name.2.1⟩

/-! ## Claim C7 — resolveModulePath stage order -/

/-- Claim C7: `resolveModulePath` coincides with the five-stage resolution
pipeline stated in the spec — (1) alias rewrite, (2) `@/` and `~/`
root-relative prefixes, (3) relative/absolute probing with the fixed
extension list falling back to the computed path, (4) bare-specifier
probing against the configured base directory, (5) unresolved/external. -/
theorem c7_resolveModulePath_stage_order (fs : FsEnv) (s d : String) :
    resolveModulePath fs s d = resolveModulePathSpec fs s d := by
  unfold resolveModulePath resolveModulePathSpec specAliasStage specRootPrefixStage specIsPathLike
  dsimp only
  rcases fs.aliasRewrite s with _ | ⟨s1, d1⟩ <;> dsimp only <;>
  · repeat' split
    all_goals simp_all [Option.getD, Option.bind]

/-! ## Claim C8 — the parse-failure fallback -/

/-- Counterexample to C8: on the unparseable fragment
`const o = { alpha: 1 };]` the usage check returns `true` for `alpha`
even though `alpha` occurs only as a non-shorthand object key — the
fallback taken on parse failure (`ScopeAnalyzer.regexFallback`) does NOT
blank object keys; the key-blanking variant the claim describes
(`regexIdentifierCheck`) would return `false`. -/
theorem c8_counterexample_fallback_keeps_object_keys :
    isIdentifierUsedInCode c8Frag ("alpha") = true
    ∧ regexIdentifierCheck c8Text ("alpha") = false :=
  ⟨by decide, by decide⟩

/-- Claim C8 as amended: whenever parsing a fragment fails, the usage check
degrades to `regexFallback` — string literals, line and block comments and
regex literals are stripped and a word-boundary match is tested, with no
shadowing model — but non-shorthand object-literal keys are NOT blanked
(key blanking exists only in the tracer's separate `regexIdentifierCheck`,
which the default path does not reach on fragment parse failure). -/
theorem c8_amended_parse_failure_fallback (frag : Frag) (identifier : String) (jsx : Bool) :
    (frag.parse jsx = none →
      isModuleScopeIdentifierUsed frag identifier jsx = regexFallback frag.text identifier)
    ∧ (frag.parse (detectJsx frag.text) = none →
      isIdentifierUsedInCode frag identifier = regexFallback frag.text identifier) := by
  constructor
  · intro h
    unfold isModuleScopeIdentifierUsed
    rw [h]
  · intro h
    unfold isIdentifierUsedInCode isModuleScopeIdentifierUsed
    rw [h]

/-- Witness for C8's amended theorem at the concrete rejected fragment. -/
theorem c8_amended_witness :
    isIdentifierUsedInCode c8Frag ("alpha") = regexFallback c8Frag.text ("alpha") :=
  (c8_amended_parse_failure_fallback c8Frag ("alpha") true).2 rfl

/-! ## Claim C10 — the usage check is deterministic and stateless -/

/-- Claim C10: the usage check at the public boundary is a pure function of
the fragment and the identifier: equal arguments give equal answers (per
call and across calls), and the JSX parse mode is derived solely from the
fragment text (the analyzer's `parseCache` is never consulted — the
embedding of `isIdentifierUsedInCode` needs no state at all). -/
theorem c10_usage_check_deterministic (f₁ f₂ : Frag) (n₁ n₂ : String)
    (hf : f₁ = f₂) (hn : n₁ = n₂) :
    isIdentifierUsedInCode f₁ n₁ = isIdentifierUsedInCode f₂ n₂
    ∧ (∀ jsx, isModuleScopeIdentifierUsed f₁ n₁ jsx = isModuleScopeIdentifierUsed f₂ n₂ jsx)
    ∧ isIdentifierUsedInCode f₁ n₁ = isModuleScopeIdentifierUsed f₁ n₁ (detectJsx f₁.text) := by
  subst hf; subst hn
  exact ⟨rfl, fun _ => rfl, rfl⟩

/-- Witness for C10 at a concrete fragment. -/
theorem c10_usage_check_deterministic_witness :
    isIdentifierUsedInCode c8Frag ("alpha") = isIdentifierUsedInCode c8Frag ("alpha")
    ∧ isIdentifierUsedInCode c8Frag ("alpha")
      = isModuleScopeIdentifierUsed c8Frag ("alpha") (detectJsx c8Frag.text) :=
  ⟨(c10_usage_check_deterministic c8Frag c8Frag ("alpha") ("alpha") rfl rfl).1,
    (c10_usage_check_deterministic c8Frag c8Frag ("alpha") ("alpha") rfl rfl).2.2⟩

/-! ## Indexer invariants and claims C9, C6 -/


theorem indexFileSt_filters : ∀ (stmts : List Stmt) (st : IndexSt) (fp rp : String),
    st.declarations = st.project.filter (fun e => (categorizeNode e.stmt e.details).intoDeclarations) →
    st.exports = st.project.filter (fun e => (categorizeNode e.stmt e.details).intoExports) →
    st.imports = st.project.filter (fun e => (categorizeNode e.stmt e.details).intoImports) →
    (indexFileSt st fp rp stmts).declarations
        = (indexFileSt st fp rp stmts).project.filter
            (fun e => (categorizeNode e.stmt e.details).intoDeclarations)
      ∧ (indexFileSt st fp rp stmts).exports
        = (indexFileSt st fp rp stmts).project.filter
            (fun e => (categorizeNode e.stmt e.details).intoExports)
      ∧ (indexFileSt st fp rp stmts).imports
        = (indexFileSt st fp rp stmts).project.filter
            (fun e => (categorizeNode e.stmt e.details).intoImports) := by
  intro stmts
  induction stmts with
  | nil => intro st fp rp h1 h2 h3; exact ⟨h1, h2, h3⟩
  | cons stmt rest ih =>
    intro st fp rp h1 h2 h3
    rw [indexFileSt, List.foldl_cons, ← indexFileSt]
    apply ih
    all_goals simp [List.filter_append, h1, h2, h3]
    all_goals split <;> simp_all

theorem indexFold_filters : ∀ (l : List SrcFile) (st : IndexSt),
    st.declarations = st.project.filter (fun e => (categorizeNode e.stmt e.details).intoDeclarations) →
    st.exports = st.project.filter (fun e => (categorizeNode e.stmt e.details).intoExports) →
    st.imports = st.project.filter (fun e => (categorizeNode e.stmt e.details).intoImports) →
    ((l.foldl (fun st f =>
        match f.parsed with
        | none => st
        | some stmts => indexFileSt st f.absolutePath f.relativePath stmts) st).declarations
      = (l.foldl (fun st f =>
        match f.parsed with
        | none => st
        | some stmts => indexFileSt st f.absolutePath f.relativePath stmts) st).project.filter
          (fun e => (categorizeNode e.stmt e.details).intoDeclarations))
    ∧ ((l.foldl (fun st f =>
        match f.parsed with
        | none => st
        | some stmts => indexFileSt st f.absolutePath f.relativePath stmts) st).exports
      = (l.foldl (fun st f =>
        match f.parsed with
        | none => st
        | some stmts => indexFileSt st f.absolutePath f.relativePath stmts) st).project.filter
          (fun e => (categorizeNode e.stmt e.details).intoExports))
    ∧ ((l.foldl (fun st f =>
        match f.parsed with
        | none => st
        | some stmts => indexFileSt st f.absolutePath f.relativePath stmts) st).imports
      = (l.foldl (fun st f =>
        match f.parsed with
        | none => st
        | some stmts => indexFileSt st f.absolutePath f.relativePath stmts) st).project.filter
          (fun e => (categorizeNode e.stmt e.details).intoImports)) := by
  intro l
  induction l with
  | nil => intro st h1 h2 h3; exact ⟨h1, h2, h3⟩
  | cons f rest ih =>
    intro st h1 h2 h3
    simp only [List.foldl_cons]
    rcases hp : f.parsed with _ | stmts
    · simp only [hp]; exact ih st h1 h2 h3
    · simp only [hp]
      obtain ⟨g1, g2, g3⟩ := indexFileSt_filters stmts st f.absolutePath f.relativePath h1 h2 h3
      exact ih _ g1 g2 g3

theorem indexAll_filters (files : List SrcFile) :
    ((indexAll files).declarations
      = (indexAll files).project.filter
          (fun e => (categorizeNode e.stmt e.details).intoDeclarations))
    ∧ ((indexAll files).exports
      = (indexAll files).project.filter
          (fun e => (categorizeNode e.stmt e.details).intoExports))
    ∧ ((indexAll files).imports
      = (indexAll files).project.filter
          (fun e => (categorizeNode e.stmt e.details).intoImports)) := by
  rw [indexAll]
  exact indexFold_filters _ _ rfl rfl rfl



theorem indexFileSt_project_mem : ∀ (stmts : List Stmt) (st : IndexSt) (fp rp : String)
    (e : Entry), e ∈ (indexFileSt st fp rp stmts).project → e ∈ st.project ∨ e.filePath = fp := by
  intro stmts
  induction stmts with
  | nil => intro st fp rp e h; exact Or.inl h
  | cons stmt rest ih =>
    intro st fp rp e h
    rw [indexFileSt, List.foldl_cons, ← indexFileSt] at h
    rcases ih _ fp rp e h with h' | h'
    · simp only [List.mem_append, List.mem_singleton] at h'
      rcases h' with h' | rfl
      · exact Or.inl h'
      · exact Or.inr rfl
    · exact Or.inr h'

theorem indexFold_project_mem : ∀ (l : List SrcFile) (st : IndexSt) (e : Entry),
    e ∈ (l.foldl (fun st f =>
        match f.parsed with
        | none => st
        | some stmts => indexFileSt st f.absolutePath f.relativePath stmts) st).project →
    e ∈ st.project ∨ ∃ g ∈ l, (∃ stmts, g.parsed = some stmts) ∧ e.filePath = g.absolutePath := by
  intro l
  induction l with
  | nil => intro st e h; exact Or.inl h
  | cons f rest ih =>
    intro st e h
    simp only [List.foldl_cons] at h
    rcases hp : f.parsed with _ | stmts
    · rw [hp] at h
      rcases ih _ e h with h' | ⟨g, hg, hgp, hfp⟩
      · exact Or.inl h'
      · exact Or.inr ⟨g, List.mem_cons_of_mem _ hg, hgp, hfp⟩
    · rw [hp] at h
      rcases ih _ e h with h' | ⟨g, hg, hgp, hfp⟩
      · rcases indexFileSt_project_mem _ _ _ _ _ h' with h'' | h''
        · exact Or.inl h''
        · exact Or.inr ⟨f, List.mem_cons_self _ _, ⟨stmts, hp⟩, h''⟩
      · exact Or.inr ⟨g, List.mem_cons_of_mem _ hg, hgp, hfp⟩

/-- Claim C9: a file whose text fails to parse is skipped — it contributes
no node to any of the four indices (given the loader's pairwise-distinct
absolute paths) — and a fragment parse failure degrades to the lexical
fallback instead of propagating: indexing and tracing are total. -/
theorem c9_unparseable_file_skipped :
    (∀ (files : List SrcFile) (f : SrcFile),
      (files.map (fun g => g.absolutePath)).Nodup →
      f ∈ files → f.parsed = none →
      ∀ e : Entry,
        (e ∈ (indexAll files).project ∨ e ∈ (indexAll files).imports
          ∨ e ∈ (indexAll files).exports ∨ e ∈ (indexAll files).declarations) →
        e.filePath ≠ f.absolutePath)
    ∧ (∀ (frag : Frag) (identifier : String) (jsx : Bool), frag.parse jsx = none →
        isModuleScopeIdentifierUsed frag identifier jsx = regexFallback frag.text identifier) := by
  constructor
  · intro files f hnd hf hnone e he
    have hproj : e ∈ (indexAll files).project := by
      obtain ⟨hd, hx, hi⟩ := indexAll_filters files
      rcases he with h | h | h | h
      · exact h
      · rw [hi] at h; exact (List.mem_filter.mp h).1
      · rw [hx] at h; exact (List.mem_filter.mp h).1
      · rw [hd] at h; exact (List.mem_filter.mp h).1
    rw [indexAll] at hproj
    rcases indexFold_project_mem _ _ _ hproj with h | ⟨g, hg, ⟨stmts, hgp⟩, hfp⟩
    · simp at h
    · have hgf : g ∈ files := (List.mem_filter.mp hg).1
      intro hcontra
      have : g = f := by
        have := List.inj_on_of_nodup_map hnd
        exact this hgf hf (by rw [← hfp]; exact hcontra)
      rw [this] at hgp
      rw [hnone] at hgp
      exact Option.noConfusion hgp
  · intro frag identifier jsx h
    unfold isModuleScopeIdentifierUsed
    rw [h]

/-- Witness for C9: in the concrete two-file project, the failing file
contributes no node anywhere, and the concrete fragment fallback. -/
theorem c9_unparseable_file_skipped_witness :
    (∀ e : Entry,
      (e ∈ (indexAll [c9Good, c9Bad]).project ∨ e ∈ (indexAll [c9Good, c9Bad]).imports
        ∨ e ∈ (indexAll [c9Good, c9Bad]).exports ∨ e ∈ (indexAll [c9Good, c9Bad]).declarations) →
      e.filePath ≠ c9Bad.absolutePath)
    ∧ isModuleScopeIdentifierUsed c8Frag ("alpha") true = regexFallback c8Frag.text ("alpha") :=
  ⟨fun e he => c9_unparseable_file_skipped.1 [c9Good, c9Bad] c9Bad (by decide)
      (List.mem_cons_of_mem _ (List.mem_cons_self _ _)) rfl e he,
    c9_unparseable_file_skipped.2 c8Frag ("alpha") true rfl⟩


/-- Counterexample to C6: the top-level statement `module.exports = X` is
indexed as an export node only — after indexing its file, the declarations
index is empty while the claim demands the node be a member. -/
theorem c6_counterexample_module_exports_not_declaration :
    (indexAll [c6File]).project.map (fun e => e.uuid) = [0]
    ∧ (indexAll [c6File]).exports.map (fun e => e.uuid) = [0]
    ∧ (indexAll [c6File]).declarations = []
    ∧ (extractNodeDetails cjsExportStmt).exportedNames
      = [{ localName := "X", exported := "default" }]
    ∧ (extractNodeDetails cjsExportStmt).isExported = true :=
  ⟨by decide, by decide, by decide, by decide, by decide⟩

/-- Claim C6 as amended: the declarations index contains exactly the
top-level nodes of declaration syntactic kinds (variable/function/class/
type-alias/interface/enum/namespace — regardless of whether their
declaredNames list is empty) together with export statements wrapping a
declaration with a non-empty declaredNames list; CommonJS
`module.exports`/`exports.K` assignment statements are indexed as exports,
not declarations. -/
theorem c6_amended_declarations_characterization :
    (∀ files : List SrcFile,
      (indexAll files).declarations
        = (indexAll files).project.filter
            (fun e => (categorizeNode e.stmt e.details).intoDeclarations))
    ∧ (∀ files : List SrcFile,
      (indexAll files).exports
        = (indexAll files).project.filter
            (fun e => (categorizeNode e.stmt e.details).intoExports))
    ∧ (∀ (right : RightShape) (d : Details),
      categorizeNode (.expressionStmt (.assign (.member (some ("module")) (some ("exports"))) right)) d
        = { intoImports := false, intoExports := true, intoDeclarations := false })
    ∧ (∀ (propName : Option String) (right : RightShape) (d : Details),
      categorizeNode (.expressionStmt (.assign (.member (some ("exports")) propName) right)) d
        = { intoImports := false, intoExports := true, intoDeclarations := false })
    ∧ (∀ (ds : List (Pat × InitExpr)) (d : Details),
      (categorizeNode (.variableStmt ds) d).intoDeclarations = true)
    ∧ (∀ (id : Option String) (d : Details),
      (categorizeNode (.tsModule id) d).intoDeclarations = true)
    ∧ (∀ (src : Option String) (decl : Option DeclNode) (specs : List RawExportSpec) (d : Details),
      (categorizeNode (.exportNamed src decl specs) d).intoDeclarations
        = (decl.isSome && !d.declaredNames.isEmpty))
    ∧ (∀ (decl : Option DeclNode) (d : Details),
      (categorizeNode (.exportDefault decl) d).intoDeclarations
        = (decl.isSome && !d.declaredNames.isEmpty)) := by
  refine ⟨fun files => (indexAll_filters files).1, fun files => (indexAll_filters files).2.1,
    fun right d => rfl, fun propName right d => by simp [categorizeNode],
    fun ds d => rfl, fun id d => rfl, fun src decl specs d => ?_, fun decl d => ?_⟩
  · cases hd : d.declaredNames <;> simp [categorizeNode, hd]
  · cases hd : d.declaredNames <;> simp [categorizeNode, hd]


/-! ## Tracer visited-set monotonicity -/

theorem reexportsLoop_mono {recur : ExtRec}
    (hrec : ∀ n s v r, recur n s v = some r → v ⊆ r.2) :
    ∀ (rs : List Reexport) (fp : String) (acc : List Nat) (vis : List String)
      (out : List Nat) (vis' : List String),
      reexportsLoop recur fp rs acc vis = some (out, vis') → vis ⊆ vis' := by
  intro rs
  induction rs with
  | nil =>
    intro fp acc vis out vis' h
    simp only [reexportsLoop, Option.some.injEq, Prod.mk.injEq] at h
    rw [← h.2]; exact List.Subset.refl _
  | cons r rs ih =>
    intro fp acc vis out vis' h
    simp only [reexportsLoop] at h
    cases hr : recur r.exportedName fp vis with
    | none => rw [hr] at h; cases h
    | some p =>
      rw [hr] at h
      exact (hrec _ _ _ _ hr).trans (ih fp _ _ _ _ h)

theorem importStep_mono {I : Indices} {E : Env} {recur : ExtRec} {name src : String}
    {imp : TNode} {acc : List Nat} {vis : List String} {r : List Nat × List String}
    (hrec : ∀ n s v r, recur n s v = some r → v ⊆ r.2)
    (h : importStep I E recur name src imp acc vis = some r) : vis ⊆ r.2 := by
  unfold importStep at h
  repeat' split at h
  all_goals
    first
      | (cases h; exact List.Subset.refl _)
      | (simp only [Option.some.injEq] at h; rw [← h]; exact List.Subset.refl _)
      | exact reexportsLoop_mono hrec _ _ _ _ _ _ (by rw [h])
      | (exact reexportsLoop_mono hrec _ _ _ _ _ r.2 (by rw [h]))

theorem importsLoop_mono {I : Indices} {E : Env} {recur : ExtRec} {name src : String}
    (hrec : ∀ n s v r, recur n s v = some r → v ⊆ r.2) :
    ∀ (lst : List TNode) (acc : List Nat) (vis : List String)
      (out : List Nat) (vis' : List String),
      importsLoop I E recur name src lst acc vis = some (out, vis') → vis ⊆ vis' := by
  intro lst
  induction lst with
  | nil =>
    intro acc vis out vis' h
    simp only [importsLoop, Option.some.injEq, Prod.mk.injEq] at h
    rw [← h.2]; exact List.Subset.refl _
  | cons imp rest ih =>
    intro acc vis out vis' h
    simp only [importsLoop] at h
    cases hs : importStep I E recur name src imp acc vis with
    | none => rw [hs] at h; cases h
    | some p =>
      rw [hs] at h
      exact (importStep_mono hrec hs).trans (ih _ _ _ _ h)

theorem exportStep_mono {E : Env} {recur : ExtRec} {name src : String}
    {en : TNode} {acc : List Nat} {vis : List String} {r : List Nat × List String}
    (hrec : ∀ n s v r, recur n s v = some r → v ⊆ r.2)
    (h : exportStep E recur name src en acc vis = some r) : vis ⊆ r.2 := by
  unfold exportStep at h
  split at h
  · cases h; exact List.Subset.refl _
  split at h
  · cases h; exact List.Subset.refl _
  split at h
  case isTrue =>
    split at h
    · cases h; exact List.Subset.refl _
    generalize (if _ = "*" then name else _) = rn at h
    dsimp only at h
    cases hrc : recur rn en.filePath vis with
    | none => rw [hrc] at h; cases h
    | some p =>
      obtain ⟨f, v'⟩ := p
      rw [hrc] at h
      simp only [Option.some.injEq] at h
      rw [← h]
      show vis ⊆ v'
      exact hrec _ _ _ _ hrc
  case isFalse => cases h; exact List.Subset.refl _

theorem exportsLoop_mono {E : Env} {recur : ExtRec} {name src : String}
    (hrec : ∀ n s v r, recur n s v = some r → v ⊆ r.2) :
    ∀ (lst : List TNode) (acc : List Nat) (vis : List String)
      (out : List Nat) (vis' : List String),
      exportsLoop E recur name src lst acc vis = some (out, vis') → vis ⊆ vis' := by
  intro lst
  induction lst with
  | nil =>
    intro acc vis out vis' h
    simp only [exportsLoop, Option.some.injEq, Prod.mk.injEq] at h
    rw [← h.2]; exact List.Subset.refl _
  | cons en rest ih =>
    intro acc vis out vis' h
    simp only [exportsLoop] at h
    cases hs : exportStep E recur name src en acc vis with
    | none => rw [hs] at h; cases h
    | some p =>
      rw [hs] at h
      exact (exportStep_mono hrec hs).trans (ih _ _ _ _ h)

theorem findExtFuel_mono {I : Indices} {E : Env} :
    ∀ (fuel : Nat) (name src : String) (vis : List String)
      (out : List Nat) (vis' : List String),
      findExtFuel I E fuel name src vis = some (out, vis') → vis ⊆ vis' := by
  intro fuel
  induction fuel with
  | zero => intro name src vis out vis' h; cases h
  | succ fuel ih =>
    intro name src vis out vis' h
    simp only [findExtFuel] at h
    split at h
    · simp only [Option.some.injEq, Prod.mk.injEq] at h
      rw [← h.2]; exact List.Subset.refl _
    · cases himp : importsLoop I E (findExtFuel I E fuel) name src I.imports []
          (vis ++ [src ++ "::" ++ name]) with
      | none => rw [himp] at h; cases h
      | some p =>
        rw [himp] at h
        have h1 : vis ⊆ vis ++ [src ++ "::" ++ name] := by
          intro x hx; exact List.mem_append_left _ hx
        exact h1.trans ((importsLoop_mono (fun n s v r => ih n s v r.1 r.2) _ _ _ _ _
          himp).trans (exportsLoop_mono (fun n s v r => ih n s v r.1 r.2) _ _ _ _ _ h))

/-! ## Tracer termination: keys are finite and fuel beyond the key count
is never exhausted -/

theorem toFinset_subset_of_subset {l l' : List String} (h : l ⊆ l') :
    l.toFinset ⊆ l'.toFinset := by
  intro x hx
  rw [List.mem_toFinset] at *
  exact h hx

theorem cardDiff_le {K : Finset String} {v v' : List String} (h : v ⊆ v') :
    (K \ v'.toFinset).card ≤ (K \ v.toFinset).card :=
  Finset.card_le_card (Finset.sdiff_subset_sdiff (le_refl K) (toFinset_subset_of_subset h))

theorem card_sdiff_append_lt {K : Finset String} {vis : List String} {key : String}
    (hK : key ∈ K) (hvis : key ∉ vis) :
    (K \ (vis ++ [key]).toFinset).card < (K \ vis.toFinset).card := by
  apply Finset.card_lt_card
  have hsub : K \ (vis ++ [key]).toFinset ⊆ K \ vis.toFinset := by
    apply Finset.sdiff_subset_sdiff (le_refl K)
    apply toFinset_subset_of_subset
    intro x hx
    exact List.mem_append_left _ hx
  refine (Finset.ssubset_iff_of_subset hsub).mpr ⟨key, ?_, ?_⟩
  · rw [Finset.mem_sdiff, List.mem_toFinset]
    exact ⟨hK, hvis⟩
  · rw [Finset.mem_sdiff]
    rintro ⟨-, hc⟩
    apply hc
    rw [List.mem_toFinset]
    exact List.mem_append_right _ (List.mem_singleton_self _)

theorem key_mem_keyUniv {I : Indices} {n0 name src : String}
    (hn : name ∈ nameUniv I n0) (hs : src ∈ fileUniv I) :
    src ++ "::" ++ name ∈ (keyUniv I n0).toFinset := by
  rw [List.mem_toFinset]
  unfold keyUniv
  rw [List.mem_flatMap]
  exact ⟨src, hs, List.mem_map.mpr ⟨name, hn, rfl⟩⟩

theorem findReexports_mem {I : Indices} {fp ln : String} {r : Reexport}
    (h : r ∈ findReexports I fp ln) :
    ∃ en ∈ I.exports, ∃ x ∈ en.exportedNames, x.localName = ln ∧ r.exportedName = x.exported := by
  unfold findReexports at h
  generalize fileToExports I fp = l at h
  induction l with
  | nil => cases h
  | cons eu rest ih =>
    rw [reexportsOf] at h
    rcases List.mem_append.mp h with h' | h'
    · cases hlook : lookupNode I.exports eu with
      | none => rw [hlook] at h'; cases h'
      | some en =>
        rw [hlook] at h'
        dsimp only at h'
        by_cases hex : en.exportSource.isSome
        · rw [if_pos hex] at h'; cases h'
        · rw [if_neg hex] at h'
          rcases List.mem_map.mp h' with ⟨y, hy, rfl⟩
          rcases List.mem_filter.mp hy with ⟨hy1, hy2⟩
          exact ⟨en, List.mem_of_find?_eq_some hlook, y, hy1, by simpa using hy2, rfl⟩
    · exact ih h'

theorem reexportsLoop_total {I : Indices} {n0 : String} {fuel : Nat} {recur : ExtRec}
    (hrecT : ∀ n s v, n ∈ nameUniv I n0 → s ∈ fileUniv I →
      ((keyUniv I n0).toFinset \ v.toFinset).card < fuel → (recur n s v).isSome)
    (hrecM : ∀ n s v r, recur n s v = some r → v ⊆ r.2) :
    ∀ (rs : List Reexport) (fp : String) (acc : List Nat) (vis : List String),
      (∀ r ∈ rs, r.exportedName ∈ nameUniv I n0) → fp ∈ fileUniv I →
      ((keyUniv I n0).toFinset \ vis.toFinset).card < fuel →
      (reexportsLoop recur fp rs acc vis).isSome := by
  intro rs
  induction rs with
  | nil => intros; simp [reexportsLoop]
  | cons r rs ih =>
    intro fp acc vis hnames hfp hcard
    simp only [reexportsLoop]
    cases hr : recur r.exportedName fp vis with
    | none =>
      have := hrecT _ _ _ (hnames r (List.mem_cons_self _ _)) hfp hcard
      rw [hr] at this
      cases this
    | some p =>
      obtain ⟨more, vis₂⟩ := p
      exact ih fp _ vis₂ (fun r' h' => hnames r' (List.mem_cons_of_mem _ h')) hfp
        (lt_of_le_of_lt (cardDiff_le (hrecM _ _ _ _ hr)) hcard)

theorem importStep_total {I : Indices} {n0 : String} {fuel : Nat} {recur : ExtRec}
    (E : Env) (name src : String) (imp : TNode) (acc : List Nat) (vis : List String)
    (hrecT : ∀ n s v, n ∈ nameUniv I n0 → s ∈ fileUniv I →
      ((keyUniv I n0).toFinset \ v.toFinset).card < fuel → (recur n s v).isSome)
    (hrecM : ∀ n s v r, recur n s v = some r → v ⊆ r.2)
    (himp : imp ∈ I.imports)
    (hcard : ((keyUniv I n0).toFinset \ vis.toFinset).card < fuel) :
    (importStep I E recur name src imp acc vis).isSome := by
  have hfp : imp.filePath ∈ fileUniv I := by
    unfold fileUniv
    exact List.mem_map.mpr ⟨imp, by simp [himp], rfl⟩
  unfold importStep
  repeat' split
  all_goals try simp
  apply reexportsLoop_total hrecT hrecM _ _ _ _ _ hfp hcard
  intro r hr
  rcases findReexports_mem hr with ⟨en, hen, x, hx, -, hne⟩
  unfold nameUniv
  refine List.mem_cons_of_mem _ (List.mem_flatMap.mpr ⟨en, hen, ?_⟩)
  rw [hne]
  exact List.mem_map.mpr ⟨x, hx, rfl⟩

theorem importsLoop_total {I : Indices} {n0 : String} {fuel : Nat} {recur : ExtRec}
    (E : Env) (name src : String)
    (hrecT : ∀ n s v, n ∈ nameUniv I n0 → s ∈ fileUniv I →
      ((keyUniv I n0).toFinset \ v.toFinset).card < fuel → (recur n s v).isSome)
    (hrecM : ∀ n s v r, recur n s v = some r → v ⊆ r.2) :
    ∀ (lst : List TNode) (acc : List Nat) (vis : List String),
      lst ⊆ I.imports →
      ((keyUniv I n0).toFinset \ vis.toFinset).card < fuel →
      (importsLoop I E recur name src lst acc vis).isSome := by
  intro lst
  induction lst with
  | nil => intros; simp [importsLoop]
  | cons imp rest ih =>
    intro acc vis hsub hcard
    have hrest : rest ⊆ I.imports := fun x hx => hsub (List.mem_cons_of_mem _ hx)
    simp only [importsLoop]
    have hstep := importStep_total E name src imp acc vis hrecT hrecM
      (hsub (List.mem_cons_self _ _)) hcard
    cases hs : importStep I E recur name src imp acc vis with
    | none => rw [hs] at hstep; cases hstep
    | some p =>
      obtain ⟨acc₂, vis₂⟩ := p
      exact ih acc₂ vis₂ hrest
        (lt_of_le_of_lt (cardDiff_le (importStep_mono hrecM hs)) hcard)

theorem exportStep_total {I : Indices} {n0 : String} {fuel : Nat} {recur : ExtRec}
    (E : Env) (name src : String) (en : TNode) (acc : List Nat) (vis : List String)
    (hrecT : ∀ n s v, n ∈ nameUniv I n0 → s ∈ fileUniv I →
      ((keyUniv I n0).toFinset \ v.toFinset).card < fuel → (recur n s v).isSome)
    (hname : name ∈ nameUniv I n0)
    (hen : en ∈ I.exports)
    (hcard : ((keyUniv I n0).toFinset \ vis.toFinset).card < fuel) :
    (exportStep E recur name src en acc vis).isSome := by
  have hfp : en.filePath ∈ fileUniv I := by
    unfold fileUniv
    exact List.mem_map.mpr ⟨en, by simp [hen], rfl⟩
  unfold exportStep
  split
  · simp
  split
  · simp
  split
  case isTrue =>
    cases hms : en.exportedNames.find?
        (fun spec => spec.localName = name || spec.localName = "*") with
    | none => simp
    | some spec =>
      have hn' : (if spec.exported = "*" then name else spec.exported) ∈ nameUniv I n0 := by
        split
        · exact hname
        · unfold nameUniv
          refine List.mem_cons_of_mem _ (List.mem_flatMap.mpr ⟨en, hen, ?_⟩)
          exact List.mem_map.mpr ⟨spec, List.mem_of_find?_eq_some hms, rfl⟩
      have hsome := hrecT _ en.filePath vis hn' hfp hcard
      dsimp only
      cases hr : recur (if spec.exported = "*" then name else spec.exported)
          en.filePath vis with
      | none => rw [hr] at hsome; cases hsome
      | some p =>
        obtain ⟨more, vis₂⟩ := p
        simp
  case isFalse => simp

theorem exportsLoop_total {I : Indices} {n0 : String} {fuel : Nat} {recur : ExtRec}
    (E : Env) (name src : String)
    (hrecT : ∀ n s v, n ∈ nameUniv I n0 → s ∈ fileUniv I →
      ((keyUniv I n0).toFinset \ v.toFinset).card < fuel → (recur n s v).isSome)
    (hrecM : ∀ n s v r, recur n s v = some r → v ⊆ r.2)
    (hname : name ∈ nameUniv I n0) :
    ∀ (lst : List TNode) (acc : List Nat) (vis : List String),
      lst ⊆ I.exports →
      ((keyUniv I n0).toFinset \ vis.toFinset).card < fuel →
      (exportsLoop E recur name src lst acc vis).isSome := by
  intro lst
  induction lst with
  | nil => intros; simp [exportsLoop]
  | cons en rest ih =>
    intro acc vis hsub hcard
    have hrest : rest ⊆ I.exports := fun x hx => hsub (List.mem_cons_of_mem _ hx)
    simp only [exportsLoop]
    have hstep := exportStep_total E name src en acc vis hrecT hname
      (hsub (List.mem_cons_self _ _)) hcard
    cases hs : exportStep E recur name src en acc vis with
    | none => rw [hs] at hstep; cases hstep
    | some p =>
      obtain ⟨acc₂, vis₂⟩ := p
      exact ih acc₂ vis₂ hrest
        (lt_of_le_of_lt (cardDiff_le (exportStep_mono hrecM hs)) hcard)

theorem findExtFuel_total {I : Indices} {E : Env} {n0 : String} :
    ∀ (fuel : Nat) (name src : String) (vis : List String),
      name ∈ nameUniv I n0 → src ∈ fileUniv I →
      ((keyUniv I n0).toFinset \ vis.toFinset).card < fuel →
      (findExtFuel I E fuel name src vis).isSome := by
  intro fuel
  induction fuel with
  | zero => intro name src vis _ _ h; cases h
  | succ fuel ih =>
    intro name src vis hn hs hcard
    simp only [findExtFuel]
    split
    · simp
    · rename_i hguard
      have hkey : src ++ "::" ++ name ∈ (keyUniv I n0).toFinset := key_mem_keyUniv hn hs
      have hnotin : src ++ "::" ++ name ∉ vis := by
        intro hc
        exact hguard (List.elem_eq_true_of_mem hc)
      have hcard' : ((keyUniv I n0).toFinset
          \ (vis ++ [src ++ "::" ++ name]).toFinset).card < fuel := by
        have h1 := card_sdiff_append_lt hkey hnotin
        omega
      have hrecM : ∀ n s v r, findExtFuel I E fuel n s v = some r → v ⊆ r.2 :=
        fun n s v r h => findExtFuel_mono fuel n s v r.1 r.2 h
      have himp := importsLoop_total E name src ih hrecM I.imports []
        (vis ++ [src ++ "::" ++ name]) (List.Subset.refl _) hcard'
      cases himpE : importsLoop I E (findExtFuel I E fuel) name src I.imports []
          (vis ++ [src ++ "::" ++ name]) with
      | none => rw [himpE] at himp; cases himp
      | some p =>
        obtain ⟨us, vis₂⟩ := p
        have hcard₂ : ((keyUniv I n0).toFinset \ vis₂.toFinset).card < fuel :=
          lt_of_le_of_lt (cardDiff_le (importsLoop_mono hrecM _ _ _ _ _ himpE)) hcard'
        exact exportsLoop_total E name src ih hrecM hn I.exports us vis₂ (List.Subset.refl _) hcard₂

/-! ## Claim C3 — termination of findExternalUsage -/

/-- Claim C3: `findExternalUsage` terminates on every project, including
circular re-export graphs.  A `(sourceFilePath, name)` pair already in the
visited set returns the empty result immediately; the pair is added before
recursing, so every visited key of a call appears in its output visited
set; and the recursion completes (never exhausts its fuel) whenever the
fuel exceeds the number of distinct `file::name` keys not yet visited —
the step count is bounded by the finite number of (file, name) pairs. -/
theorem c3_findExternalUsage_terminates :
    (∀ (I : Indices) (E : Env) (n0 : String) (fuel : Nat) (name src : String)
        (vis : List String),
      name ∈ nameUniv I n0 → src ∈ fileUniv I →
      ((keyUniv I n0).toFinset \ vis.toFinset).card < fuel →
      (findExtFuel I E fuel name src vis).isSome)
    ∧ (∀ (I : Indices) (E : Env) (fuel : Nat) (name src : String) (vis : List String),
      (src ++ "::" ++ name) ∈ vis →
      findExtFuel I E (fuel + 1) name src vis = some ([], vis))
    ∧ (∀ (I : Indices) (E : Env) (fuel : Nat) (name src : String) (vis : List String)
        (out : List Nat) (vis' : List String),
      findExtFuel I E (fuel + 1) name src vis = some (out, vis') →
      (src ++ "::" ++ name) ∈ vis') := by
  refine ⟨fun I E n0 fuel name src vis hn hs hc => findExtFuel_total fuel name src vis hn hs hc,
    fun I E fuel name src vis hmem => ?_, fun I E fuel name src vis out vis' h => ?_⟩
  · simp only [findExtFuel]
    rw [if_pos (List.elem_eq_true_of_mem hmem)]
  · simp only [findExtFuel] at h
    split at h
    · rename_i hguard
      simp only [Option.some.injEq, Prod.mk.injEq] at h
      rw [← h.2]
      exact List.mem_of_elem_eq_true hguard
    · cases himp : importsLoop I E (findExtFuel I E fuel) name src I.imports []
          (vis ++ [src ++ "::" ++ name]) with
      | none => rw [himp] at h; cases h
      | some p =>
        rw [himp] at h
        have hkey : (src ++ "::" ++ name) ∈ vis ++ [src ++ "::" ++ name] :=
          List.mem_append_right _ (List.mem_singleton_self _)
        have hrecM : ∀ n s v r, findExtFuel I E fuel n s v = some r → v ⊆ r.2 :=
          fun n s v r hh => findExtFuel_mono fuel n s v r.1 r.2 hh
        exact exportsLoop_mono hrecM _ _ _ _ _ h
          (importsLoop_mono hrecM _ _ _ _ _ himp hkey)

/-- Witness for C3 on the concrete cyclic project: the bounded fuel
completes the trace of `v` from `/A.ts`, and a visited key returns
immediately. -/
theorem c3_findExternalUsage_terminates_witness :
    (findExtFuel cycIndices cycEnv (keyBound cycIndices ("v")) ("v") ("/A.ts") []).isSome
    ∧ findExtFuel cycIndices cycEnv (0 + 1) ("v") ("/A.ts") ["/A.ts::v"]
      = some ([], ["/A.ts::v"]) :=
  ⟨c3_findExternalUsage_terminates.1 cycIndices cycEnv ("v") (keyBound cycIndices ("v"))
      ("v") ("/A.ts") [] (by decide) (by decide)
      (by simp [keyBound]),
    c3_findExternalUsage_terminates.2.1 cycIndices cycEnv 0 ("v") ("/A.ts") ["/A.ts::v"]
      (by decide)⟩


/-! ## Tracer soundness: where external uuids come from -/

theorem externalWitness_mono {I : Indices} {E : Env} {v v' : List String} {u : Nat}
    (hsub : v ⊆ v') (h : externalWitness I E v u) : externalWitness I E v' u := by
  obtain ⟨imp, himp, isrc, f, n', h1, h2, h3, h4, h5, h6⟩ := h
  exact ⟨imp, himp, isrc, f, n', h1, h2, h3, h4, hsub h5, h6⟩

theorem fileToNodes_mem {I : Indices} {fp : String} {u : Nat} (h : u ∈ fileToNodes I fp) :
    ∃ nd ∈ I.project, nd.uuid = u ∧ nd.filePath = fp := by
  unfold fileToNodes at h
  rcases List.mem_map.mp h with ⟨nd, hnd, rfl⟩
  rcases List.mem_filter.mp hnd with ⟨h1, h2⟩
  exact ⟨nd, h1, rfl, by simpa using h2⟩

theorem scanConsumersGo_mem {I : Indices} {iu : Nat} {ln : String} :
    ∀ (l acc : List Nat) (u : Nat), u ∈ scanConsumersGo I iu ln l acc → u ∈ acc ∨ u ∈ l := by
  intro l
  induction l with
  | nil => intro acc u h; exact Or.inl h
  | cons cu rest ih =>
    intro acc u h
    rw [scanConsumersGo] at h
    split at h
    · rcases ih _ _ h with h' | h'
      · exact Or.inl h'
      · exact Or.inr (List.mem_cons_of_mem _ h')
    · have hout : u ∈ acc ∨ u = cu ∨ u ∈ rest := by
        split at h
        · rcases ih _ _ h with h' | h'
          · exact Or.inl h'
          · exact Or.inr (Or.inr h')
        · split at h
          · rcases ih _ _ h with h' | h'
            · exact Or.inl h'
            · exact Or.inr (Or.inr h')
          · split at h
            · rcases ih _ _ h with h' | h'
              · rcases mem_addUniq.mp h' with h'' | h''
                · exact Or.inl h''
                · exact Or.inr (Or.inl h'')
              · exact Or.inr (Or.inr h')
            · rcases ih _ _ h with h' | h'
              · exact Or.inl h'
              · exact Or.inr (Or.inr h')
      rcases hout with h' | h' | h'
      · exact Or.inl h'
      · exact Or.inr (h' ▸ List.mem_cons_self _ _)
      · exact Or.inr (List.mem_cons_of_mem _ h')

theorem reexportsLoop_sound {I : Indices} {E : Env} {recur : ExtRec}
    (hrecS : ∀ n s v out v', recur n s v = some (out, v') →
      ∀ u ∈ out, externalWitness I E v' u)
    (hrecM : ∀ n s v r, recur n s v = some r → v ⊆ r.2) :
    ∀ (rs : List Reexport) (fp : String) (acc : List Nat) (vis : List String)
      (out : List Nat) (vis' : List String),
      reexportsLoop recur fp rs acc vis = some (out, vis') →
      ∀ u ∈ out, u ∈ acc ∨ externalWitness I E vis' u := by
  intro rs
  induction rs with
  | nil =>
    intro fp acc vis out vis' h u hu
    simp only [reexportsLoop, Option.some.injEq, Prod.mk.injEq] at h
    rw [← h.1] at hu
    exact Or.inl hu
  | cons r rs ih =>
    intro fp acc vis out vis' h u hu
    simp only [reexportsLoop] at h
    cases hr : recur r.exportedName fp vis with
    | none => rw [hr] at h; cases h
    | some p =>
      obtain ⟨more, vis₂⟩ := p
      rw [hr] at h
      rcases ih fp _ _ _ _ h u hu with h' | h'
      · rcases List.mem_append.mp h' with h'' | h''
        · exact Or.inl h''
        · refine Or.inr (externalWitness_mono ?_ (hrecS _ _ _ _ _ hr u h''))
          exact reexportsLoop_mono hrecM _ _ _ _ _ _ h
      · exact Or.inr h'

theorem importStep_sound {I : Indices} {E : Env} {recur : ExtRec} {name src : String}
    {imp : TNode} {acc : List Nat} {vis : List String} {out : List Nat} {vis' : List String}
    (hrecS : ∀ n s v out v', recur n s v = some (out, v') →
      ∀ u ∈ out, externalWitness I E v' u)
    (hrecM : ∀ n s v r, recur n s v = some r → v ⊆ r.2)
    (himp : imp ∈ I.imports)
    (hkey : (src ++ "::" ++ name) ∈ vis)
    (h : importStep I E recur name src imp acc vis = some (out, vis')) :
    ∀ u ∈ out, u ∈ acc ∨ externalWitness I E vis' u := by
  intro u hu
  unfold importStep at h
  split at h
  · simp only [Option.some.injEq, Prod.mk.injEq] at h
    rw [← h.1] at hu
    exact Or.inl hu
  rename_i hne
  cases his : imp.importSource with
  | none =>
    rw [his] at h
    simp only [Option.some.injEq, Prod.mk.injEq] at h
    rw [← h.1] at hu
    exact Or.inl hu
  | some isrc =>
    rw [his] at h
    dsimp only at h
    split at h
    case isFalse =>
      simp only [Option.some.injEq, Prod.mk.injEq] at h
      rw [← h.1] at hu
      exact Or.inl hu
    case isTrue hres =>
      cases hms : findMatchingImportSpecifier imp name with
      | none =>
        rw [hms] at h
        simp only [Option.some.injEq, Prod.mk.injEq] at h
        rw [← h.1] at hu
        exact Or.inl hu
      | some spec =>
        rw [hms] at h
        dsimp only at h
        have hvisv : vis ⊆ vis' := reexportsLoop_mono hrecM _ _ _ _ _ _ h
        rcases reexportsLoop_sound hrecS hrecM _ _ _ _ _ _ h u hu with h' | h'
        · rcases scanConsumersGo_mem _ _ _ h' with h'' | h''
          · exact Or.inl h''
          · rcases fileToNodes_mem h'' with ⟨nd, hnd, hndu, hndf⟩
            exact Or.inr ⟨imp, himp, isrc, src, name, his, hres, hne, by simp [hms],
              hvisv hkey, nd, hnd, hndu, hndf⟩
        · exact Or.inr h'

theorem importsLoop_sound {I : Indices} {E : Env} {recur : ExtRec} {name src : String}
    (hrecS : ∀ n s v out v', recur n s v = some (out, v') →
      ∀ u ∈ out, externalWitness I E v' u)
    (hrecM : ∀ n s v r, recur n s v = some r → v ⊆ r.2) :
    ∀ (lst : List TNode) (acc : List Nat) (vis : List String)
      (out : List Nat) (vis' : List String),
      lst ⊆ I.imports →
      (src ++ "::" ++ name) ∈ vis →
      importsLoop I E recur name src lst acc vis = some (out, vis') →
      ∀ u ∈ out, u ∈ acc ∨ externalWitness I E vis' u := by
  intro lst
  induction lst with
  | nil =>
    intro acc vis out vis' _ _ h u hu
    simp only [importsLoop, Option.some.injEq, Prod.mk.injEq] at h
    rw [← h.1] at hu
    exact Or.inl hu
  | cons imp rest ih =>
    intro acc vis out vis' hsub hkey h u hu
    simp only [importsLoop] at h
    cases hs : importStep I E recur name src imp acc vis with
    | none => rw [hs] at h; cases h
    | some p =>
      obtain ⟨acc₂, vis₂⟩ := p
      rw [hs] at h
      have hv2 : vis ⊆ vis₂ := importStep_mono hrecM hs
      rcases ih _ _ _ _ (fun x hx => hsub (List.mem_cons_of_mem _ hx)) (hv2 hkey) h u hu
        with h' | h'
      · rcases importStep_sound hrecS hrecM (hsub (List.mem_cons_self _ _)) hkey hs u h'
          with h'' | h''
        · exact Or.inl h''
        · exact Or.inr (externalWitness_mono (importsLoop_mono hrecM _ _ _ _ _ h) h'')
      · exact Or.inr h'

theorem exportStep_sound {I : Indices} {E : Env} {recur : ExtRec} {name src : String}
    {en : TNode} {acc : List Nat} {vis : List String} {out : List Nat} {vis' : List String}
    (hrecS : ∀ n s v out v', recur n s v = some (out, v') →
      ∀ u ∈ out, externalWitness I E v' u)
    (h : exportStep E recur name src en acc vis = some (out, vis')) :
    ∀ u ∈ out, u ∈ acc ∨ externalWitness I E vis' u := by
  intro u hu
  unfold exportStep at h
  split at h
  · simp only [Option.some.injEq, Prod.mk.injEq] at h
    rw [← h.1] at hu
    exact Or.inl hu
  split at h
  · simp only [Option.some.injEq, Prod.mk.injEq] at h
    rw [← h.1] at hu
    exact Or.inl hu
  split at h
  case isTrue =>
    split at h
    · simp only [Option.some.injEq, Prod.mk.injEq] at h
      rw [← h.1] at hu
      exact Or.inl hu
    generalize (if _ = "*" then name else _) = rn at h
    dsimp only at h
    cases hrc : recur rn en.filePath vis with
    | none => rw [hrc] at h; cases h
    | some p =>
      obtain ⟨more, vis₂⟩ := p
      rw [hrc] at h
      simp only [Option.some.injEq, Prod.mk.injEq] at h
      obtain ⟨h1, h2⟩ := h
      rw [← h1] at hu
      rcases List.mem_append.mp hu with h' | h'
      · exact Or.inl h'
      · exact Or.inr (h2 ▸ hrecS _ _ _ _ _ hrc u h')
  case isFalse =>
    simp only [Option.some.injEq, Prod.mk.injEq] at h
    rw [← h.1] at hu
    exact Or.inl hu

theorem exportsLoop_sound {I : Indices} {E : Env} {recur : ExtRec} {name src : String}
    (hrecS : ∀ n s v out v', recur n s v = some (out, v') →
      ∀ u ∈ out, externalWitness I E v' u)
    (hrecM : ∀ n s v r, recur n s v = some r → v ⊆ r.2) :
    ∀ (lst : List TNode) (acc : List Nat) (vis : List String)
      (out : List Nat) (vis' : List String),
      exportsLoop E recur name src lst acc vis = some (out, vis') →
      ∀ u ∈ out, u ∈ acc ∨ externalWitness I E vis' u := by
  intro lst
  induction lst with
  | nil =>
    intro acc vis out vis' h u hu
    simp only [exportsLoop, Option.some.injEq, Prod.mk.injEq] at h
    rw [← h.1] at hu
    exact Or.inl hu
  | cons en rest ih =>
    intro acc vis out vis' h u hu
    simp only [exportsLoop] at h
    cases hs : exportStep E recur name src en acc vis with
    | none => rw [hs] at h; cases h
    | some p =>
      obtain ⟨acc₂, vis₂⟩ := p
      rw [hs] at h
      rcases ih _ _ _ _ h u hu with h' | h'
      · rcases exportStep_sound hrecS hs u h' with h'' | h''
        · exact Or.inl h''
        · exact Or.inr (externalWitness_mono (exportsLoop_mono hrecM _ _ _ _ _ h) h'')
      · exact Or.inr h'

theorem findExtFuel_sound {I : Indices} {E : Env} :
    ∀ (fuel : Nat) (name src : String) (vis : List String)
      (out : List Nat) (vis' : List String),
      findExtFuel I E fuel name src vis = some (out, vis') →
      ∀ u ∈ out, externalWitness I E vis' u := by
  intro fuel
  induction fuel with
  | zero => intro name src vis out vis' h; cases h
  | succ fuel ih =>
    intro name src vis out vis' h u hu
    have hrecM : ∀ n s v r, findExtFuel I E fuel n s v = some r → v ⊆ r.2 :=
      fun n s v r hh => findExtFuel_mono fuel n s v r.1 r.2 hh
    have hrecS : ∀ n s v o v', findExtFuel I E fuel n s v = some (o, v') →
        ∀ u ∈ o, externalWitness I E v' u :=
      fun n s v o v' hh => ih n s v o v' hh
    simp only [findExtFuel] at h
    split at h
    · simp only [Option.some.injEq, Prod.mk.injEq] at h
      rw [← h.1] at hu
      cases hu
    · cases himp : importsLoop I E (findExtFuel I E fuel) name src I.imports []
          (vis ++ [src ++ "::" ++ name]) with
      | none => rw [himp] at h; cases h
      | some p =>
        obtain ⟨us, vis₂⟩ := p
        rw [himp] at h
        have hkey : (src ++ "::" ++ name) ∈ vis ++ [src ++ "::" ++ name] :=
          List.mem_append_right _ (List.mem_singleton_self _)
        rcases exportsLoop_sound hrecS hrecM _ _ _ _ _ h u hu with h' | h'
        · rcases importsLoop_sound hrecS hrecM _ _ _ _ _ (List.Subset.refl _) hkey himp u h'
            with h'' | h''
          · cases h''
          · exact externalWitness_mono (exportsLoop_mono hrecM _ _ _ _ _ h) h''
        · exact h'

/-! ## traceDeclaration result invariants -/

theorem findInternalUsageGo_mem {I : Indices} {du : Nat} {n : String} :
    ∀ (l acc : List Nat) (u : Nat),
      u ∈ findInternalUsageGo I du n l acc → u ∈ acc ∨ (u ∈ l ∧ u ≠ du) := by
  intro l
  induction l with
  | nil => intro acc u h; exact Or.inl h
  | cons cu rest ih =>
    intro acc u h
    rw [findInternalUsageGo] at h
    split at h
    case isTrue hcu =>
      rcases ih _ _ h with h' | ⟨h1, h2⟩
      · exact Or.inl h'
      · exact Or.inr ⟨List.mem_cons_of_mem _ h1, h2⟩
    case isFalse hcu =>
      have hout : u ∈ acc ++ [cu] ∨ (u ∈ rest ∧ u ≠ du) := by
        split at h
        · rcases ih _ _ h with h' | h'
          · exact Or.inl (List.mem_append_left _ h')
          · exact Or.inr h'
        · split at h
          · rcases ih _ _ h with h' | h'
            · exact Or.inl (List.mem_append_left _ h')
            · exact Or.inr h'
          · split at h
            · rcases ih _ _ h with h' | h'
              · exact Or.inl h'
              · exact Or.inr h'
            · rcases ih _ _ h with h' | h'
              · exact Or.inl (List.mem_append_left _ h')
              · exact Or.inr h'
      rcases hout with h' | h'
      · rcases List.mem_append.mp h' with h'' | h''
        · exact Or.inl h''
        · rw [List.mem_singleton] at h''
          subst h''
          exact Or.inr ⟨List.mem_cons_self _ _, hcu⟩
      · exact Or.inr ⟨List.mem_cons_of_mem _ h'.1, h'.2⟩

theorem findInternalUsage_ne {I : Indices} {du : Nat} {n fp : String} {u : Nat}
    (h : u ∈ findInternalUsage I du n fp) : u ≠ du := by
  unfold findInternalUsage at h
  rcases findInternalUsageGo_mem _ _ _ h with h' | h'
  · cases h'
  · exact h'.2

theorem traceDeclaration_invariants (I : Indices) (E : Env) (node : TNode) :
    (traceDeclaration I E node).internal.Nodup
    ∧ (traceDeclaration I E node).external.Nodup
    ∧ node.uuid ∉ (traceDeclaration I E node).internal := by
  unfold traceDeclaration
  apply List.foldlRecOn (motive := fun d : Dependant =>
    d.internal.Nodup ∧ d.external.Nodup ∧ node.uuid ∉ d.internal)
  · exact ⟨List.nodup_nil, List.nodup_nil, List.not_mem_nil _⟩
  · intro res hres name hname
    obtain ⟨h1, h2, h3⟩ := hres
    have hstep : (({ res with internal :=
        (findInternalUsage I node.uuid name node.filePath).foldl addUniq res.internal })
          : Dependant).internal.Nodup
        ∧ (({ res with internal :=
        (findInternalUsage I node.uuid name node.filePath).foldl addUniq res.internal })
          : Dependant).external.Nodup
        ∧ node.uuid ∉ (({ res with internal :=
        (findInternalUsage I node.uuid name node.filePath).foldl addUniq res.internal })
          : Dependant).internal := by
      refine ⟨foldl_addUniq_nodup _ _ h1, h2, ?_⟩
      intro hc
      rcases (foldl_addUniq_mem _ _).mp hc with h' | h'
      · exact h3 h'
      · exact findInternalUsage_ne h' rfl
    split
    · apply List.foldlRecOn (motive := fun d : Dependant =>
        d.internal.Nodup ∧ d.external.Nodup ∧ node.uuid ∉ d.internal)
      · exact hstep
      · intro res₂ hres₂ en _
        exact ⟨hres₂.1, foldl_addUniq_nodup _ _ hres₂.2.1, hres₂.2.2⟩
    · exact hstep

/-! ## Claim C1 — dependency-result hygiene -/

/-- Counterexample to C1: in the cyclic project (`/A.ts` declares and
exports `v`, `/B.ts` re-exports `v` from `/A.ts`, and `/A.ts`
itself imports `v` back from `/B.ts` as `w` and uses it), `external(v)` contains
uuid 3 — the `const r = w + 1` node of the declaration's own file `/A.ts`.
The same-file skip only applies to the current recursion source, so a
re-export graph leading back into the declaring file defeats it. -/
theorem c1_counterexample_cyclic_reexport :
    (traceDeclaration cycIndices cycEnv cycDecl).external = [3]
    ∧ cycUse.uuid = 3
    ∧ cycUse.filePath = cycDecl.filePath :=
  ⟨by decide, by decide, by decide⟩

/-- Claim C1 as amended: after tracing, `internal` and `external` are
deduplicated by id and `D.id ∉ internal(D)` for every project; every
external uuid comes from the file of an import that matched a traversed
`(file, name)` key with file ≠ that import's file, so when no import in
D's own file matches a traversed key of another file — in particular when
the import/re-export graph never leads back into D's file — `external(D)`
contains no id of a node of D's own file (and hence not `D.id`).  In
cyclic projects leading back into D's file the exclusion can fail
(see the counterexample). -/
theorem c1_amended_dedup_and_same_file_exclusion :
    (∀ (I : Indices) (E : Env) (node : TNode),
      (traceDeclaration I E node).internal.Nodup
      ∧ (traceDeclaration I E node).external.Nodup
      ∧ node.uuid ∉ (traceDeclaration I E node).internal)
    ∧ (∀ (I : Indices) (E : Env) (D : TNode) (fuel : Nat) (name : String)
        (out : List Nat) (vis' : List String),
      D ∈ I.project →
      (I.project.map (fun n => n.uuid)).Nodup →
      findExtFuel I E fuel name D.filePath [] = some (out, vis') →
      (∀ imp ∈ I.imports, imp.filePath = D.filePath →
        ∀ isrc, imp.importSource = some isrc →
        ∀ f, E.resolve isrc (E.dirname imp.filePath) = some f →
        f = D.filePath ∨ ∀ n', (f ++ "::" ++ n') ∈ vis' →
          findMatchingImportSpecifier imp n' = none) →
      (∀ u ∈ out, ∀ nd ∈ I.project, nd.uuid = u → nd.filePath ≠ D.filePath)
      ∧ D.uuid ∉ out) := by
  refine ⟨traceDeclaration_invariants, ?_⟩
  intro I E D fuel name out vis' hD hnodup h hH
  have hmain : ∀ u ∈ out, ∀ nd ∈ I.project, nd.uuid = u → nd.filePath ≠ D.filePath := by
    intro u hu nd hnd hndu hcontra
    obtain ⟨imp, himp, isrc, f, n', h1, h2, h3, h4, h5, nd₀, hnd₀, hnd₀u, hnd₀f⟩ :=
      findExtFuel_sound fuel name D.filePath [] out vis' h u hu
    have hnd_eq : nd = nd₀ :=
      List.inj_on_of_nodup_map hnodup hnd hnd₀ (by rw [hndu, hnd₀u])
    have himpD : imp.filePath = D.filePath := by
      rw [← hnd₀f, ← hnd_eq, hcontra]
    rcases hH imp himp himpD isrc h1 f h2 with hf | hnone
    · exact h3 (by rw [himpD, hf])
    · have := hnone n' h5
      rw [this] at h4
      cases h4
  refine ⟨hmain, fun hin => hmain D.uuid hin D hD rfl rfl⟩

/-- Witness for C1's amended theorem on the acyclic namespace project:
tracing `alpha` from `/m.ts` yields only the consumer in `/c.ts`, never a
node of `/m.ts` itself, and the dedup/self-exclusion facts hold there. -/
theorem c1_amended_witness :
    ((traceDeclaration nsIndices nsEnv nsDecl).internal.Nodup
      ∧ (traceDeclaration nsIndices nsEnv nsDecl).external.Nodup
      ∧ nsDecl.uuid ∉ (traceDeclaration nsIndices nsEnv nsDecl).internal)
    ∧ ((∀ u ∈ [2], ∀ nd ∈ nsIndices.project, nd.uuid = u → nd.filePath ≠ nsDecl.filePath)
      ∧ nsDecl.uuid ∉ [2]) := by
  constructor
  · exact c1_amended_dedup_and_same_file_exclusion.1 nsIndices nsEnv nsDecl
  · apply c1_amended_dedup_and_same_file_exclusion.2 nsIndices nsEnv nsDecl 5 ("alpha")
        [2] ["/m.ts::alpha"]
    · exact List.mem_cons_self _ _
    · decide
    · decide
    · intro imp himp hfp
      rw [show nsIndices.imports = [nsImport] from rfl, List.mem_singleton] at himp
      subst himp
      exact absurd hfp (by decide)

/-! ## Claim C2 — the re-export chain family: string facts -/

theorem lvlFile_data (k : Nat) : (lvlFile k).data
    = '/' :: 'l' :: 'e' :: 'v' :: 'e' :: 'l' :: (List.replicate k 'x' ++ ['.', 't', 's']) := by
  simp [lvlFile, String.data_append]

theorem lvlSrc_data (k : Nat) : (lvlSrc k).data
    = '.' :: '/' :: 'l' :: 'e' :: 'v' :: 'e' :: 'l' :: List.replicate k 'x' := by
  simp [lvlSrc, String.data_append]

theorem consumerFile_data :
    consumerFile.data = ['/', 'c', 'o', 'n', 's', 'u', 'm', 'e', 'r', '.', 't', 's'] := rfl

theorem chainResolve_lvlSrc (k : Nat) (d : String) :
    chainEnv.resolve (lvlSrc k) d = some (lvlFile k) := by
  show (match (lvlSrc k).data with
    | '.' :: '/' :: rest => some (String.mk ('/' :: rest) ++ ".ts")
    | _ => none) = some (lvlFile k)
  rw [lvlSrc_data]
  change some (String.mk ('/' :: 'l' :: 'e' :: 'v' :: 'e' :: 'l' :: List.replicate k 'x')
    ++ ".ts") = some (lvlFile k)
  apply congrArg
  apply String.ext
  simp [lvlFile_data, String.data_append]

theorem lvlFile_inj {j k : Nat} (h : lvlFile j = lvlFile k) : j = k := by
  have h2 := congrArg (fun s => s.data.length) h
  simp only [lvlFile_data, List.length_cons, List.length_append,
    List.length_replicate] at h2
  omega

theorem lvlFile_ne_consumer (k : Nat) : lvlFile k ≠ consumerFile := by
  intro h
  have h2 := congrArg String.data h
  rw [lvlFile_data, consumerFile_data] at h2
  simp at h2

theorem lvlKey_inj {j k : Nat}
    (h : lvlFile j ++ "::" ++ "v" = lvlFile k ++ "::" ++ "v") : j = k := by
  have h2 := congrArg (fun s => s.data.length) h
  simp only [String.data_append, lvlFile_data, List.length_append, List.length_cons,
    List.length_replicate] at h2
  omega

/-! ## Chain project evaluation lemmas -/

theorem chain_filter_reexports_nil (N : Nat) (fp : String)
    (hfp : ∀ i, i < N → lvlFile (i + 1) ≠ fp) :
    ((List.range N).map chainReexportNode).filter (fun n => n.filePath = fp) = [] := by
  rw [List.filter_eq_nil_iff]
  intro a ha
  rcases List.mem_map.mp ha with ⟨i, hi, rfl⟩
  simpa [chainReexportNode] using hfp i (List.mem_range.mp hi)

theorem chain_fileToNodes_consumer (N : Nat) :
    fileToNodes (chainIndices N) consumerFile = [N + 1, N + 2] := by
  unfold fileToNodes
  have h1 : (chainIndices N).project
      = chainDeclNode :: ((List.range N).map chainReexportNode
        ++ [chainImportNode N, chainUseNode N]) := rfl
  rw [h1, List.filter_cons, List.filter_append,
    chain_filter_reexports_nil N consumerFile (fun i _ => lvlFile_ne_consumer (i + 1))]
  have h2 : (chainDeclNode.filePath = consumerFile) = False := by
    simp [chainDeclNode, lvlFile_ne_consumer 0]
  simp [h2, chainImportNode, chainUseNode]

theorem chain_fileToNodes_lvl0 (N : Nat) :
    fileToNodes (chainIndices N) (lvlFile 0) = [0] := by
  unfold fileToNodes
  have h1 : (chainIndices N).project
      = chainDeclNode :: ((List.range N).map chainReexportNode
        ++ [chainImportNode N, chainUseNode N]) := rfl
  rw [h1, List.filter_cons, List.filter_append,
    chain_filter_reexports_nil N (lvlFile 0)
      (fun i _ h => Nat.succ_ne_zero i (lvlFile_inj h))]
  have h2 : (chainImportNode N).filePath = consumerFile := rfl
  have h3 : (chainUseNode N).filePath = consumerFile := rfl
  simp [chainDeclNode, h2, h3, (lvlFile_ne_consumer 0).symm]

theorem chain_fileToExports_consumer (N : Nat) :
    fileToExports (chainIndices N) consumerFile = [] := by
  unfold fileToExports
  have h1 : (chainIndices N).exports
      = chainDeclNode :: (List.range N).map chainReexportNode := rfl
  rw [h1, List.filter_cons,
    chain_filter_reexports_nil N consumerFile (fun i _ => lvlFile_ne_consumer (i + 1))]
  have h2 : (chainDeclNode.filePath = consumerFile) = False := by
    simp [chainDeclNode, lvlFile_ne_consumer 0]
  simp [h2]

theorem find?_append_of_none {α : Type} {p : α → Bool} {l₁ l₂ : List α}
    (h : l₁.find? p = none) : (l₁ ++ l₂).find? p = l₂.find? p := by
  induction l₁ with
  | nil => rfl
  | cons a l ih =>
    cases hpa : p a with
    | true => rw [List.find?_cons_of_pos _ hpa] at h; cases h
    | false =>
      rw [List.find?_cons_of_neg _ (by simp [hpa])] at h
      rw [show (a :: l) ++ l₂ = a :: (l ++ l₂) from rfl, List.find?_cons_of_neg _ (by simp [hpa])]
      exact ih h

theorem chain_find?_reexports_none (N : Nat) (u : Nat) (hu : ∀ i, i < N → i + 1 ≠ u) :
    ((List.range N).map chainReexportNode).find? (fun n => n.uuid = u) = none := by
  rw [List.find?_eq_none]
  intro a ha
  rcases List.mem_map.mp ha with ⟨i, hi, rfl⟩
  simpa [chainReexportNode] using hu i (List.mem_range.mp hi)

theorem chain_lookup_use (N : Nat) :
    lookupNode (chainIndices N).project (N + 2) = some (chainUseNode N) := by
  unfold lookupNode
  have h1 : (chainIndices N).project
      = chainDeclNode :: ((List.range N).map chainReexportNode
        ++ [chainImportNode N, chainUseNode N]) := rfl
  rw [h1, List.find?_cons]
  split
  · rename_i hc
    simp [chainDeclNode] at hc
  · rw [find?_append_of_none (chain_find?_reexports_none N (N + 2)
      (fun i hi h => by omega))]
    rw [List.find?_cons]
    split
    · rename_i hc
      simp [chainImportNode] at hc
    · rw [List.find?_cons]
      split
      · rfl
      · rename_i hc
        simp [chainUseNode] at hc

theorem chain_scanConsumers (N : Nat) (acc : List Nat) :
    scanConsumers (chainIndices N) (N + 1) consumerFile ("v") acc = addUniq acc (N + 2) := by
  unfold scanConsumers
  rw [chain_fileToNodes_consumer]
  rw [scanConsumersGo, if_pos rfl]
  rw [scanConsumersGo, if_neg (by omega)]
  rw [chain_lookup_use]
  dsimp only
  have hfrag : (chainUseNode N).frag
      = { text := "const r = v + 1", parse := fun _ => some astConstRV } := rfl
  rw [hfrag]
  rw [if_neg (by decide), if_pos (by decide)]
  rw [scanConsumersGo]

theorem chain_findReexports_consumer (N : Nat) :
    findReexports (chainIndices N) consumerFile ("v") = [] := by
  unfold findReexports
  rw [chain_fileToExports_consumer]
  rfl

theorem chain_importStep_hit (N : Nat) (recur : ExtRec) (acc : List Nat)
    (vis : List String) :
    importStep (chainIndices N) chainEnv recur ("v") (lvlFile N) (chainImportNode N)
      acc vis = some (addUniq acc (N + 2), vis) := by
  unfold importStep
  rw [if_neg (show (chainImportNode N).filePath ≠ lvlFile N from
    Ne.symm (lvlFile_ne_consumer N))]
  have hsrc : (chainImportNode N).importSource = some (lvlSrc N) := rfl
  rw [hsrc]
  dsimp only
  rw [chainResolve_lvlSrc, if_pos rfl]
  have hspec : findMatchingImportSpecifier (chainImportNode N) ("v")
      = some { type := .named, localName := "v", imported := "v" } := by
    unfold findMatchingImportSpecifier
    rfl
  rw [hspec]
  show reexportsLoop recur (chainImportNode N).filePath
      (findReexports (chainIndices N) (chainImportNode N).filePath ("v"))
      (scanConsumers (chainIndices N) (chainImportNode N).uuid
        (chainImportNode N).filePath ("v") acc) vis = _
  have hfp : (chainImportNode N).filePath = consumerFile := rfl
  have huuid : (chainImportNode N).uuid = N + 1 := rfl
  rw [hfp, huuid, chain_scanConsumers, chain_findReexports_consumer]
  rw [reexportsLoop]

theorem chain_importStep_skip (N k : Nat) (hk : k ≠ N) (recur : ExtRec)
    (acc : List Nat) (vis : List String) :
    importStep (chainIndices N) chainEnv recur ("v") (lvlFile k) (chainImportNode N)
      acc vis = some (acc, vis) := by
  unfold importStep
  rw [if_neg (show (chainImportNode N).filePath ≠ lvlFile k from
    Ne.symm (lvlFile_ne_consumer k))]
  have hsrc : (chainImportNode N).importSource = some (lvlSrc N) := rfl
  rw [hsrc]
  dsimp only
  rw [chainResolve_lvlSrc,
    if_neg (fun hc => hk (lvlFile_inj (Option.some.inj hc)).symm)]

theorem chain_exportStep_decl (k : Nat) (recur : ExtRec) (acc : List Nat)
    (vis : List String) :
    exportStep chainEnv recur ("v") (lvlFile k) chainDeclNode acc vis
      = some (acc, vis) := by
  unfold exportStep
  by_cases h0 : chainDeclNode.filePath = lvlFile k
  · rw [if_pos h0]
  · rw [if_neg h0]
    have hsrc : chainDeclNode.exportSource = none := rfl
    rw [hsrc]

theorem chain_exportStep_reexport_skip {i s : Nat} (his : i ≠ s)
    (recur : ExtRec) (acc : List Nat) (vis : List String) :
    exportStep chainEnv recur ("v") (lvlFile s) (chainReexportNode i) acc vis
      = some (acc, vis) := by
  unfold exportStep
  by_cases hfp : (chainReexportNode i).filePath = lvlFile s
  · rw [if_pos hfp]
  · rw [if_neg hfp]
    have hsrc : (chainReexportNode i).exportSource = some (lvlSrc i) := rfl
    rw [hsrc]
    dsimp only
    have hdir : chainEnv.dirname (chainReexportNode i).filePath = "/" := rfl
    rw [hdir, chainResolve_lvlSrc,
      if_neg (show ¬(some (lvlFile i) = some (lvlFile s)) from
        fun hc => his (lvlFile_inj (Option.some.inj hc)))]

theorem chain_exportStep_reexport_hit (k : Nat) (recur : ExtRec) (acc : List Nat)
    (vis : List String) :
    exportStep chainEnv recur ("v") (lvlFile k) (chainReexportNode k) acc vis
      = match recur ("v") (lvlFile (k + 1)) vis with
        | none => none
        | some (furtherUsage, vis2) => some (acc ++ furtherUsage, vis2) := by
  unfold exportStep
  rw [if_neg (show (chainReexportNode k).filePath ≠ lvlFile k from
    fun hc => Nat.succ_ne_self k (lvlFile_inj hc))]
  have hsrc : (chainReexportNode k).exportSource = some (lvlSrc k) := rfl
  rw [hsrc]
  dsimp only
  have hdir : chainEnv.dirname (chainReexportNode k).filePath = "/" := rfl
  rw [hdir, chainResolve_lvlSrc, if_pos rfl]
  have hfind : (chainReexportNode k).exportedNames.find?
      (fun spec => spec.localName = "v" || spec.localName = "*")
      = some { localName := "v", exported := "v" } := rfl
  rw [hfind]
  have hfp : (chainReexportNode k).filePath = lvlFile (k + 1) := rfl
  rw [hfp]
  rfl

theorem exportsLoop_append (E : Env) (recur : ExtRec) (n s : String) :
    ∀ (l₁ l₂ : List TNode) (acc : List Nat) (vis : List String),
    exportsLoop E recur n s (l₁ ++ l₂) acc vis
      = match exportsLoop E recur n s l₁ acc vis with
        | none => none
        | some (a, v) => exportsLoop E recur n s l₂ a v := by
  intro l₁
  induction l₁ with
  | nil => intro l₂ acc vis; rfl
  | cons e l ih =>
    intro l₂ acc vis
    show exportsLoop E recur n s (e :: (l ++ l₂)) acc vis = _
    rw [exportsLoop]
    rw [exportsLoop]
    cases exportStep E recur n s e acc vis with
    | none => rfl
    | some p => exact ih l₂ p.1 p.2

theorem exportsLoop_inert (E : Env) (recur : ExtRec) (n s : String) :
    ∀ (l : List TNode),
    (∀ e ∈ l, ∀ (acc : List Nat) (vis : List String),
      exportStep E recur n s e acc vis = some (acc, vis)) →
    ∀ (acc : List Nat) (vis : List String),
    exportsLoop E recur n s l acc vis = some (acc, vis) := by
  intro l
  induction l with
  | nil => intro _ acc vis; rfl
  | cons e t ih =>
    intro h acc vis
    rw [exportsLoop, h e (List.mem_cons_self e t) acc vis]
    exact ih (fun x hx => h x (List.mem_cons_of_mem e hx)) acc vis

theorem chain_range_decomp (N k : Nat) (hk : k < N) :
    (List.range N).map chainReexportNode
      = (List.range k).map chainReexportNode
        ++ (chainReexportNode k ::
            (List.range (N - k - 1)).map (fun j => chainReexportNode (k + j + 1))) := by
  have h1 : List.range N = List.range k ++ (List.range (N - k)).map (fun j => k + j) := by
    conv_lhs => rw [show N = k + (N - k) from by omega]
    rw [List.range_add]
  rw [h1, List.map_append]
  congr 1
  have h2 : N - k = (N - k - 1) + 1 := by omega
  conv_lhs => rw [h2, List.range_succ_eq_map]
  rw [List.map_cons, List.map_cons, List.map_map, List.map_map]
  rfl

theorem chain_exportsLoop_eval (N k : Nat) (hk : k < N) (recur : ExtRec)
    (acc : List Nat) (vis : List String) :
    exportsLoop chainEnv recur ("v") (lvlFile k)
        (chainDeclNode :: (List.range N).map chainReexportNode) acc vis
      = match recur ("v") (lvlFile (k + 1)) vis with
        | none => none
        | some (more, vis2) => some (acc ++ more, vis2) := by
  rw [exportsLoop, chain_exportStep_decl]
  show exportsLoop chainEnv recur ("v") (lvlFile k)
      ((List.range N).map chainReexportNode) acc vis = _
  rw [chain_range_decomp N k hk]
  rw [exportsLoop_append]
  rw [exportsLoop_inert chainEnv recur ("v") (lvlFile k) _
    (fun e he acc2 vis2 => by
      rcases List.mem_map.mp he with ⟨i, hi, rfl⟩
      exact chain_exportStep_reexport_skip
        (by have := List.mem_range.mp hi; omega) recur acc2 vis2) acc vis]
  dsimp only
  rw [exportsLoop, chain_exportStep_reexport_hit]
  cases hrec : recur ("v") (lvlFile (k + 1)) vis with
  | none => rfl
  | some p =>
    obtain ⟨more, vis2⟩ := p
    dsimp only
    exact exportsLoop_inert chainEnv recur ("v") (lvlFile k) _
      (fun e he acc2 vis3 => by
        rcases List.mem_map.mp he with ⟨i, hi, rfl⟩
        exact chain_exportStep_reexport_skip (by omega) recur acc2 vis3)
      (acc ++ more) vis2

theorem chain_main (N : Nat) : ∀ (fuel k : Nat) (vis : List String),
    k ≤ N → N - k < fuel →
    (∀ j, k ≤ j → j ≤ N → ¬ (lvlFile j ++ "::" ++ "v") ∈ vis) →
    ∃ out vis2,
      findExtFuel (chainIndices N) chainEnv fuel ("v") (lvlFile k) vis = some (out, vis2)
      ∧ (N + 2) ∈ out := by
  intro fuel
  induction fuel with
  | zero => intro k vis hkN hf hkeys; exact absurd hf (by omega)
  | succ f ih =>
    intro k vis hkN hf hkeys
    have hguard : ¬(vis.contains (lvlFile k ++ "::" ++ "v") = true) := fun hc =>
      hkeys k (Nat.le_refl k) hkN (List.mem_of_elem_eq_true hc)
    simp only [findExtFuel]
    rw [if_neg hguard]
    have himports : (chainIndices N).imports = [chainImportNode N] := rfl
    rw [himports, importsLoop]
    have hexports : (chainIndices N).exports
        = chainDeclNode :: (List.range N).map chainReexportNode := rfl
    by_cases hkN2 : k = N
    · subst hkN2
      rw [chain_importStep_hit]
      dsimp only
      rw [importsLoop]
      rw [hexports]
      refine ⟨addUniq [] (k + 2), vis ++ [lvlFile k ++ "::" ++ "v"], ?_, ?_⟩
      · exact exportsLoop_inert chainEnv _ ("v") (lvlFile k) _
          (fun e he acc2 vis2 => by
            rcases List.mem_cons.mp he with rfl | he2
            · exact chain_exportStep_decl k _ acc2 vis2
            · rcases List.mem_map.mp he2 with ⟨i, hi, rfl⟩
              exact chain_exportStep_reexport_skip
                (by have := List.mem_range.mp hi; omega) _ acc2 vis2)
          (addUniq [] (k + 2)) (vis ++ [lvlFile k ++ "::" ++ "v"])
      · rw [mem_addUniq]
        exact Or.inr rfl
    · have hklt : k < N := Nat.lt_of_le_of_ne hkN hkN2
      rw [chain_importStep_skip N k hkN2]
      dsimp only
      rw [importsLoop]
      rw [hexports]
      dsimp only
      rw [chain_exportsLoop_eval N k hklt]
      obtain ⟨out, vis2, hrec, hmem⟩ := ih (k + 1) (vis ++ [lvlFile k ++ "::" ++ "v"])
        (by omega) (by omega)
        (fun j hj1 hj2 hc => by
          rcases List.mem_append.mp hc with hc | hc
          · exact hkeys j (by omega) hj2 hc
          · exact absurd (lvlKey_inj (List.mem_singleton.mp hc)) (by omega))
      rw [hrec]
      exact ⟨[] ++ out, vis2, rfl, by simpa using hmem⟩

theorem chain_lvlFile_mem_fileUniv (N : Nat) {j : Nat} (hj : j ≤ N) :
    lvlFile j ∈ fileUniv (chainIndices N) := by
  unfold fileUniv
  apply List.mem_map.mpr
  cases j with
  | zero =>
    exact ⟨chainDeclNode, List.mem_append_left _ (List.mem_append_left _
      (List.mem_append_left _ (List.mem_cons_self _ _))), rfl⟩
  | succ i =>
    refine ⟨chainReexportNode i, List.mem_append_left _ (List.mem_append_left _
      (List.mem_append_left _ ?_)), rfl⟩
    exact List.mem_cons_of_mem _ (List.mem_append_left _
      (List.mem_map.mpr ⟨i, List.mem_range.mpr (by omega), rfl⟩))

theorem chain_keyBound_gt (N : Nat) : N < keyBound (chainIndices N) ("v") := by
  unfold keyBound
  have hsub : ((List.range (N + 1)).map (fun j => lvlFile j ++ "::" ++ "v")).toFinset
      ⊆ (keyUniv (chainIndices N) ("v")).toFinset := by
    intro x hx
    rw [List.mem_toFinset] at hx
    rcases List.mem_map.mp hx with ⟨j, hj, rfl⟩
    exact key_mem_keyUniv (List.mem_cons_self _ _)
      (chain_lvlFile_mem_fileUniv N (by have := List.mem_range.mp hj; omega))
  have hcard := Finset.card_le_card hsub
  have hnodup : ((List.range (N + 1)).map (fun j => lvlFile j ++ "::" ++ "v")).Nodup := by
    refine List.Nodup.map_on ?_ (List.nodup_range (N + 1))
    intro x _ y _ hxy
    exact lvlKey_inj hxy
  have hlen : ((List.range (N + 1)).map (fun j => lvlFile j ++ "::" ++ "v")).toFinset.card
      = N + 1 := by
    rw [List.toFinset_card_of_nodup hnodup]
    simp
  omega

theorem chain_getExported (N : Nat) :
    getExportedNamesForDeclaredName (chainIndices N) ("v") chainDeclNode = ["v"] := by
  unfold getExportedNamesForDeclaredName
  have hown : (chainDeclNode.exportedNames.filter (fun e => e.localName = "v")).map
      (fun e => e.exported) = ["v"] := rfl
  rw [hown]
  rfl

theorem chain_internal (N : Nat) :
    findInternalUsage (chainIndices N) 0 ("v") (lvlFile 0) = [] := by
  unfold findInternalUsage
  rw [chain_fileToNodes_lvl0]
  rw [findInternalUsageGo, if_pos rfl]
  rfl

/-- C2: tracing the declaration of `v` through a re-export chain of length
`N ≥ 1` reaches the consumer at the far end — the `dependant.external` of
the declaring node contains the consuming statement's uuid `N + 2` — and the
recursion completes within the `keyBound` fuel (the visited set breaks the
would-be infinite revisiting, matching the spec's chain/termination claim). -/
theorem c2_reexport_chain_traced (N : Nat) (hN : 1 ≤ N) :
    (N + 2) ∈ (traceDeclaration (chainIndices N) chainEnv chainDeclNode).external
    ∧ (findExtFuel (chainIndices N) chainEnv (keyBound (chainIndices N) ("v")) ("v")
        (lvlFile 0) []).isSome := by
  obtain ⟨out, vis2, heq, hmem⟩ := chain_main N (keyBound (chainIndices N) ("v")) 0 []
    (Nat.zero_le N) (by have := chain_keyBound_gt N; omega)
    (fun j _ _ hc => List.not_mem_nil _ hc)
  constructor
  · unfold traceDeclaration
    have hdn : chainDeclNode.declaredNames = ["v"] := rfl
    rw [hdn, List.foldl_cons, List.foldl_nil]
    have h0 : chainDeclNode.uuid = 0 := rfl
    have hfp : chainDeclNode.filePath = lvlFile 0 := rfl
    dsimp only
    rw [h0, hfp, chain_internal]
    have hex : chainDeclNode.isExported = true := rfl
    rw [hex, Bool.true_or, if_pos rfl]
    rw [chain_getExported, List.foldl_cons, List.foldl_nil]
    dsimp only
    unfold findExternalUsage
    rw [heq]
    dsimp only [Option.getD, List.foldl_nil]
    exact (foldl_addUniq_mem out []).mpr (Or.inr hmem)
  · rw [heq]
    rfl

/-- Witness for C2 at chain length 10: consumer uuid 12 is traced as an
external dependant of the declaration of `v`, and the tracer terminates. -/
theorem c2_reexport_chain_witness :
    (12 : Nat) ∈ (traceDeclaration (chainIndices 10) chainEnv chainDeclNode).external
    ∧ (findExtFuel (chainIndices 10) chainEnv (keyBound (chainIndices 10) ("v")) ("v")
        (lvlFile 0) []).isSome :=
  c2_reexport_chain_traced 10 (by decide)
end Atomizer
